import Mathlib

set_option autoImplicit false

/-!
# Reconciler: worker-pool occupancy repository and reconciliation result

A shallow embedding of

* `pkg/scheduler/occupancy/persistent.go` (the persistent occupancy repository), and
* the reconciliation result exercised by `pkg/scheduler/service/result_test.go`.

Conventions of the embedding.

* Go `int` and `int64` values are Lean integers; `int` is 64 bits wide on the supported
  platforms, so the conversion `int64(x)` of an `int` is the identity.  Where the code
  does arithmetic on `int64` (the two accumulators of the mean occupancy) the
  two's-complement wrap-around is explicit (`wrap64`).
* `float64` arithmetic is IEEE 754 binary64 with rounding to nearest, ties to even; a
  finite value is the rational number it denotes (`roundFloat64`).
* The clock (`time.Now()`) is an explicit argument; instants and durations are integers
  (milliseconds).
* The database is an explicit value: the contents of the table `worker_pool_occupancies`.
  Every repository method takes the table and, when it writes, returns the new table
  next to its result.
-/

-- Results of fallible calls are compared by value.
deriving instance DecidableEq for Except

namespace Reconciler

/-! ## Entities -/

/-- The row type of `worker_pool_occupancies` (`model.WorkerPoolOccupancyEntity`), with the
fields the repository reads and writes. -/
structure WorkerPoolOccupancyEntity where
  WorkerPoolID : String
  Component : String
  RunningWorkers : Int
  WorkerPoolCapacity : Int
  Created : Int
deriving DecidableEq

/-- The contents of the table `worker_pool_occupancies`, in row order. -/
abbrev Table := List WorkerPoolOccupancyEntity

/-! ## The persistence layer (package `db`) -/

/-- Errors raised by the persistence layer. -/
inductive DbError where
  | uniqueViolation
  | checkViolation
  | noRows
deriving DecidableEq

/-- Errors returned by the repository: a backend error passed through unchanged, or one of
the errors built with `fmt.Errorf` in `persistent.go`. -/
inductive RepoError where
  | backend (e : DbError)
  | noRecordComponentList
  | noRecordForComponent (component : String)
  | noRecordOccupancies
  | invalidRunningWorkers (running capacity : Int)
deriving DecidableEq

/-- Modelled from the spec: the table definition of `worker_pool_occupancies` is missing
from the sources.  The schema of spec section 6 declares
`worker_pool_capacity INTEGER NOT NULL CHECK > 0` and
`running_workers INTEGER NOT NULL DEFAULT 0 CHECK ≥ 0`; this is the conjunction of the two
row checks. -/
def checkConstraints (e : WorkerPoolOccupancyEntity) : Bool :=
  decide (0 < e.WorkerPoolCapacity) && decide (0 ≤ e.RunningWorkers)

/-- Modelled from the spec: `db.NewQuery(..).Insert().Exec()` is missing from the sources.
Following the schema of spec section 6 (`worker_pool_id TEXT PRIMARY KEY` and the row
checks) the insert is refused when the key is already present or a check fails; otherwise
the row is added to the table. -/
def insertExec (t : Table) (e : WorkerPoolOccupancyEntity) : Except DbError Table :=
  if t.any (fun r => r.WorkerPoolID == e.WorkerPoolID) then .error .uniqueViolation
  else if !checkConstraints e then .error .checkViolation
  else .ok (t ++ [e])

/-- Modelled from the spec: `db.NewQuery(..).Select().GetMany()` is missing from the
sources; it returns all rows of the table. -/
def selectGetMany (t : Table) : List WorkerPoolOccupancyEntity := t

/-- Modelled from the spec: `Select().Where({"Component": c}).GetMany()` is missing from the
sources; it returns the rows whose component column equals `c`. -/
def selectWhereComponentGetMany (t : Table) (component : String) :
    List WorkerPoolOccupancyEntity :=
  t.filter (fun r => r.Component == component)

/-- Modelled from the spec: `Select().Where({"WorkerPoolID": p}).GetOne()` is missing from
the sources; it returns the row with that key or the not-found error of the backend. -/
def selectWhereWorkerPoolIDGetOne (t : Table) (poolID : String) :
    Except DbError WorkerPoolOccupancyEntity :=
  match t.find? (fun r => r.WorkerPoolID == poolID) with
  | some r => .ok r
  | none => .error .noRows

/-- Modelled from the spec: `db.NewQuery(tx, e, ..).Update().Where({"WorkerPoolID": p}).Exec()`
is missing from the sources.  The statement writes the column values of the entity `e` into
every row selected by the condition; the row checks of the schema are evaluated on the
written row.  The repository only passes an entity it has read under the same poolID, so the
key column is rewritten with its own value. -/
def updateWhereWorkerPoolIDExec (t : Table) (e : WorkerPoolOccupancyEntity) (poolID : String) :
    Except DbError Table :=
  if t.any (fun r => r.WorkerPoolID == poolID) && !checkConstraints e then
    .error .checkViolation
  else .ok (t.map (fun r => if r.WorkerPoolID == poolID then e else r))

/-- Modelled from the spec: `db.NewQuery(..).Delete().Where({"WorkerPoolID": p}).Exec()` is
missing from the sources; it removes the selected rows and returns their number together
with the remaining table. -/
def deleteWhereWorkerPoolIDExec (t : Table) (poolID : String) : Nat × Table :=
  ((t.filter (fun r => r.WorkerPoolID == poolID)).length,
   t.filter (fun r => !(r.WorkerPoolID == poolID)))

/-- Modelled from the spec: `db.TransactionResult` is missing from the sources.  The
operations run on the table; when they return an error the transaction is rolled back (the
table is the one before the call), otherwise it is committed. -/
def TransactionResult {α : Type} (t : Table) (dbOps : Table → Except RepoError α × Table) :
    Except RepoError α × Table :=
  match dbOps t with
  | (.ok a, t') => (.ok a, t')
  | (.error e, _) => (.error e, t)

/-- Modelled from the spec: `db.Transaction` is missing from the sources; it is
`db.TransactionResult` for operations that return an error only. -/
def Transaction (t : Table) (dbOps : Table → Except RepoError Unit × Table) :
    Except RepoError Unit × Table :=
  match dbOps t with
  | (.ok a, t') => (.ok a, t')
  | (.error e, _) => (.error e, t)

/-! ## `PersistentOccupancyRepository` -/

/-- Embedding of `PersistentOccupancyRepository.CreateWorkerPoolOccupancy`; `now` is the value
of `time.Now().UTC()`. -/
def CreateWorkerPoolOccupancy (t : Table) (now : Int) (poolID component : String)
    (poolSize : Int) : Except RepoError WorkerPoolOccupancyEntity × Table :=
  TransactionResult t (fun tx =>
    let occupancyEntity : WorkerPoolOccupancyEntity :=
      { WorkerPoolID := poolID
        Component := component
        RunningWorkers := 0
        WorkerPoolCapacity := poolSize
        Created := now }
    match insertExec tx occupancyEntity with
    | .error err => (.error (.backend err), tx)
    | .ok tx' => (.ok occupancyEntity, tx'))

/-- Embedding of `PersistentOccupancyRepository.GetComponentList`. -/
def GetComponentList (t : Table) : Except RepoError (List String) :=
  let databaseEntities := selectGetMany t
  if databaseEntities.length == 0 then .error .noRecordComponentList
  else .ok (databaseEntities.foldl (fun componentList occupancy =>
    componentList ++ [occupancy.Component]) [])

/-- Two's-complement wrap-around of a 64-bit signed integer. -/
def wrap64 (x : Int) : Int := (x + 2 ^ 63) % 2 ^ 64 - 2 ^ 63

/-- The loop of `GetMeanWorkerPoolOccupancyByComponent`: the pair
`(aggregatedUsage, aggregatedCapacity)` of `int64` accumulators after the rows. -/
def aggregate (rows : List WorkerPoolOccupancyEntity) : Int × Int :=
  rows.foldl (fun acc occupancy =>
    (wrap64 (acc.1 + occupancy.RunningWorkers),
     wrap64 (acc.2 + occupancy.WorkerPoolCapacity))) (0, 0)

/-! ### `float64` arithmetic

Go evaluates `float64` expressions in IEEE 754 binary64 with rounding to nearest, ties to
even.  A finite `float64` value is represented by the rational number it denotes (the two
zeros are one value).  The rounding below has 53 significant bits and no bound on the
exponent; for operands that come from `int64` values every intermediate result of
`100 * float64(u) / float64(k)` is zero or has a magnitude between `2^-57` and `2^70`, inside
the normal range of binary64, where this rounding is the one of binary64. -/

/-- Rounding of a rational number to the nearest integer, ties to the even one. -/
def roundHalfEven (m : ℚ) : ℤ :=
  if m - ⌊m⌋ < 1 / 2 then ⌊m⌋
  else if 1 / 2 < m - ⌊m⌋ then ⌊m⌋ + 1
  else if ⌊m⌋ % 2 = 0 then ⌊m⌋ else ⌊m⌋ + 1

/-- Rounding of a positive rational number to the nearest number with 53 significant bits:
with `e = ⌊log₂ x⌋` the significand `x / 2^(e-52)` is rounded to an integer. -/
def roundFloat64Pos (x : ℚ) : ℚ :=
  (roundHalfEven (x / 2 ^ (Int.log 2 x - 52)) : ℚ) * 2 ^ (Int.log 2 x - 52)

/-- Rounding of a rational number to binary64 (round to nearest, ties to even). -/
def roundFloat64 (x : ℚ) : ℚ :=
  if 0 < x then roundFloat64Pos x
  else if x < 0 then -roundFloat64Pos (-x)
  else 0

/-- A `float64` value: a finite number, an infinity or NaN. -/
inductive Float64 where
  | finite (v : ℚ)
  | posInf
  | negInf
  | nan
deriving DecidableEq

/-- The value of `100 * float64(u) / float64(k)` when `float64(k)` is not zero: the
conversions, the product and the quotient are each rounded. -/
def meanValue (u k : ℤ) : ℚ :=
  roundFloat64 (roundFloat64 (100 * roundFloat64 (u : ℚ)) / roundFloat64 (k : ℚ))

/-- The expression `100 * float64(aggregatedUsage) / float64(aggregatedCapacity)` of
`GetMeanWorkerPoolOccupancyByComponent`; a division by zero gives an infinity or NaN. -/
def aggregatedOccupancy (aggregatedUsage aggregatedCapacity : Int) : Float64 :=
  if roundFloat64 (aggregatedCapacity : ℚ) = 0 then
    if 0 < roundFloat64 (100 * roundFloat64 (aggregatedUsage : ℚ)) then .posInf
    else if roundFloat64 (100 * roundFloat64 (aggregatedUsage : ℚ)) < 0 then .negInf
    else .nan
  else .finite (meanValue aggregatedUsage aggregatedCapacity)

/-- Embedding of `PersistentOccupancyRepository.GetMeanWorkerPoolOccupancyByComponent`. -/
def GetMeanWorkerPoolOccupancyByComponent (t : Table) (component : String) :
    Except RepoError Float64 :=
  let databaseEntities := selectWhereComponentGetMany t component
  if databaseEntities.length == 0 then .error (.noRecordForComponent component)
  else
    let agg := aggregate databaseEntities
    .ok (aggregatedOccupancy agg.1 agg.2)

/-- Embedding of `PersistentOccupancyRepository.GetWorkerPoolOccupancies`. -/
def GetWorkerPoolOccupancies (t : Table) :
    Except RepoError (List WorkerPoolOccupancyEntity) :=
  let databaseEntities := selectGetMany t
  if databaseEntities.length == 0 then .error .noRecordOccupancies
  else .ok (databaseEntities.foldl (fun occupancyEntities occupancy =>
    occupancyEntities ++ [occupancy]) [])

/-- Embedding of `PersistentOccupancyRepository.FindWorkerPoolOccupancyByID`. -/
def FindWorkerPoolOccupancyByID (t : Table) (poolID : String) :
    Except RepoError WorkerPoolOccupancyEntity :=
  match selectWhereWorkerPoolIDGetOne t poolID with
  | .error err => .error (.backend err)
  | .ok databaseEntity => .ok databaseEntity

/-- Embedding of `PersistentOccupancyRepository.UpdateWorkerPoolOccupancy`. -/
def UpdateWorkerPoolOccupancy (t : Table) (poolID : String) (runningWorkers : Int) :
    Except RepoError Unit × Table :=
  Transaction t (fun tx =>
    match FindWorkerPoolOccupancyByID tx poolID with
    | .error err => (.error err, tx)
    | .ok occupancyEntity =>
      if occupancyEntity.RunningWorkers = runningWorkers then (.ok (), tx)
      else if runningWorkers > occupancyEntity.WorkerPoolCapacity then
        (.error (.invalidRunningWorkers runningWorkers occupancyEntity.WorkerPoolCapacity), tx)
      else
        let occupancyEntity' := { occupancyEntity with RunningWorkers := runningWorkers }
        match updateWhereWorkerPoolIDExec tx occupancyEntity' poolID with
        | .error err => (.error (.backend err), tx)
        | .ok tx' => (.ok (), tx'))

/-- The body of the transaction of `RemoveWorkerPoolOccupancy`: the deletion count (which
the code only logs) and the table after the delete. -/
def removeDbOps (tx : Table) (poolID : String) : Nat × Table :=
  deleteWhereWorkerPoolIDExec tx poolID

/-- Embedding of `PersistentOccupancyRepository.RemoveWorkerPoolOccupancy`. -/
def RemoveWorkerPoolOccupancy (t : Table) (poolID : String) : Except RepoError Unit × Table :=
  Transaction t (fun tx => (.ok (), (removeDbOps tx poolID).2))

/-! ## Stores, invariants and call sequences -/

/-- The primary key of the table: no two rows share a `worker_pool_id`. -/
def PoolIDsUnique (t : Table) : Prop := (t.map (fun r => r.WorkerPoolID)).Nodup

instance (t : Table) : Decidable (PoolIDsUnique t) := by
  unfold PoolIDsUnique
  infer_instance

/-- A table that satisfies the constraints of the schema: the primary key and the row
checks. -/
def SchemaOK (t : Table) : Prop :=
  PoolIDsUnique t ∧ ∀ r ∈ t, checkConstraints r = true

instance (t : Table) : Decidable (SchemaOK t) := by
  unfold SchemaOK
  infer_instance

/-- The occupancy invariant of the data model on every row:
`0 ≤ runningWorkers ≤ capacity` and `capacity ≥ 1`. -/
def OccupancyInvariant (t : Table) : Prop :=
  ∀ r ∈ t, 0 ≤ r.RunningWorkers ∧ r.RunningWorkers ≤ r.WorkerPoolCapacity ∧
    1 ≤ r.WorkerPoolCapacity

instance (t : Table) : Decidable (OccupancyInvariant t) := by
  unfold OccupancyInvariant
  infer_instance

/-- The property carried along call sequences: unique poolIDs and the occupancy invariant. -/
def ReachInv (t : Table) : Prop := PoolIDsUnique t ∧ OccupancyInvariant t

/-- Sum of the running workers of a list of rows, as a mathematical integer. -/
def sumRunningWorkers (rows : List WorkerPoolOccupancyEntity) : Int :=
  (rows.map (fun r => r.RunningWorkers)).sum

/-- Sum of the capacities of a list of rows, as a mathematical integer. -/
def sumCapacity (rows : List WorkerPoolOccupancyEntity) : Int :=
  (rows.map (fun r => r.WorkerPoolCapacity)).sum

/-- A call of one of the three writing methods of the repository, with its arguments
(`now` is the clock reading of a create). -/
inductive Call where
  | create (now : Int) (poolID component : String) (poolSize : Int)
  | update (poolID : String) (runningWorkers : Int)
  | remove (poolID : String)
deriving DecidableEq

/-- The table after a call, whether the call succeeded or failed. -/
def applyCall (t : Table) : Call → Table
  | .create now poolID component poolSize =>
    (CreateWorkerPoolOccupancy t now poolID component poolSize).2
  | .update poolID runningWorkers => (UpdateWorkerPoolOccupancy t poolID runningWorkers).2
  | .remove poolID => (RemoveWorkerPoolOccupancy t poolID).2

/-- The table reached from the empty table by a sequence of calls. -/
def runCalls (calls : List Call) : Table := calls.foldl applyCall []

/-! ## Reconciliation result (package `service`)

The implementation file of the reconciliation result is not part of the sources; only its
test `result_test.go` is.  The definitions of this section are modelled from the spec
(section 4.1) and are checked against the test cases of `TestReconciliationResult` below. -/

/-- Operation states (`model.OperationState`), the wire values `new`, `inprogress`, `done`,
`error`, `failed`, `orphan`, `client_error`. -/
inductive OperationState where
  | OperationStateNew
  | OperationStateInProgress
  | OperationStateDone
  | OperationStateError
  | OperationStateFailed
  | OperationStateOrphan
  | OperationStateClientError
deriving DecidableEq

/-- Operation types (`model.OperationType`) are strings; the test leaves the field at its
zero value (the empty string) in the reconcile run. -/
abbrev OperationType := String

/-- Wire value of the reconcile operation type. -/
def OperationTypeReconcile : OperationType := "reconcile"

/-- Wire value of the delete operation type. -/
def OperationTypeDelete : OperationType := "delete"

/-- Cluster statuses (`model.Status`), the wire values `reconciling`, `ready`,
`reconcile_error`, `deleting`, `deleted`, `delete_error`. -/
inductive Status where
  | ClusterStatusReconciling
  | ClusterStatusReady
  | ClusterStatusReconcileError
  | ClusterStatusDeleting
  | ClusterStatusDeleted
  | ClusterStatusDeleteError
deriving DecidableEq

/-- The operation entity (`model.OperationEntity`) with the fields the test sets; `Type_`
is the Go field `Type`. -/
structure OperationEntity where
  Priority : Int
  SchedulingID : String
  CorrelationID : String
  Type_ : OperationType
  State : OperationState
  Updated : Int
deriving DecidableEq

/-- The reconciliation entity (`model.ReconciliationEntity`) with the fields the test sets. -/
structure ReconciliationEntity where
  RuntimeID : String
  SchedulingID : String
deriving DecidableEq

open OperationState Status

/-- Classes of the decision matrix of spec section 4.1. -/
inductive OpClass where
  | terminalOK
  | terminalBad
  | pending
  | running
  | orphaned
  | unclassified
deriving DecidableEq

/-- Modelled from the spec: the classification of operation states of section 4.1 (the
implementation of the reconciliation result is missing from the sources).  The state
`client_error` is in none of the five classes. -/
def classify : OperationState → OpClass
  | OperationStateDone => .terminalOK
  | OperationStateError => .terminalBad
  | OperationStateFailed => .terminalBad
  | OperationStateNew => .pending
  | OperationStateInProgress => .running
  | OperationStateOrphan => .orphaned
  | OperationStateClientError => .unclassified

/-- Modelled from the spec: the mode of the decision matrix (the implementation is missing
from the sources).  The mode is derived from the majority operation type; all operations of
one schedulingID share a type and a mixed set uses reconcile, so the delete mode is the one
of a non-empty set of delete operations only. -/
def isDeleteMode (ops : List OperationEntity) : Bool :=
  !ops.isEmpty && ops.all (fun op => op.Type_ == OperationTypeDelete)

/-- Success status of a mode. -/
def successStatus (delete : Bool) : Status :=
  if delete then ClusterStatusDeleted else ClusterStatusReady

/-- Error status of a mode. -/
def errorStatus (delete : Bool) : Status :=
  if delete then ClusterStatusDeleteError else ClusterStatusReconcileError

/-- In-flight status of a mode. -/
def inFlightStatus (delete : Bool) : Status :=
  if delete then ClusterStatusDeleting else ClusterStatusReconciling

/-- Whether some operation of the set is in the class. -/
def anyClass (ops : List OperationEntity) (c : OpClass) : Bool :=
  ops.any (fun op => classify op.State == c)

/-- Modelled from the spec: the status decision rules of section 4.1, evaluated top to
bottom, first match wins (the implementation is missing from the sources). -/
def evaluateStatus (ops : List OperationEntity) : Status :=
  let delete := isDeleteMode ops
  if ops.all (fun op => classify op.State == .terminalOK) then successStatus delete
  else if anyClass ops .terminalBad && !anyClass ops .pending && !anyClass ops .running then
    errorStatus delete
  else if anyClass ops .terminalBad && anyClass ops .pending && !anyClass ops .running then
    errorStatus delete
  else inFlightStatus delete

/-- The result-evaluation object: the carrier's identifiers, the held operations and the
cached aggregate status. -/
structure ReconciliationResult where
  runtimeID : String
  schedulingID : String
  operations : List OperationEntity
  status : Status
deriving DecidableEq

/-- Errors of the reconciliation result. -/
inductive ResultError where
  | missingCorrelationID
deriving DecidableEq

/-- Modelled from the spec: construction of the result object from a reconciliation value,
with an empty operation set (the implementation is missing from the sources).  The cached
status is the one the decision rules give for the empty set. -/
def newReconciliationResult (recon : ReconciliationEntity) : ReconciliationResult :=
  { runtimeID := recon.RuntimeID
    schedulingID := recon.SchedulingID
    operations := []
    status := evaluateStatus [] }

/-- Structural validity of an operation entity: the correlationID is present. -/
def structurallyValid (op : OperationEntity) : Bool := !(op.CorrelationID == "")

/-- Modelled from the spec: `AddOperations` of section 4.1 (the implementation is missing
from the sources).  It fails on a structurally invalid entity; otherwise the operations
with the carrier's schedulingID are appended, the others are dropped, and the aggregate
status is recomputed and cached. -/
def AddOperations (rs : ReconciliationResult) (ops : List OperationEntity) :
    Except ResultError ReconciliationResult :=
  if ops.all structurallyValid then
    let operations := rs.operations ++ ops.filter (fun op => op.SchedulingID == rs.schedulingID)
    .ok { rs with operations := operations, status := evaluateStatus operations }
  else .error .missingCorrelationID

/-- Modelled from the spec: `GetOperations` returns the accumulated operations. -/
def GetOperations (rs : ReconciliationResult) : List OperationEntity := rs.operations

/-- Modelled from the spec: `GetResult` returns the cached aggregate status. -/
def GetResult (rs : ReconciliationResult) : Status := rs.status

/-- The states that take part in orphan detection.  Section 4.1 of the spec names
`inprogress`; section 9 records that the source also reports `failed` operations, which the
fourth case of `TestReconciliationResult` asserts. -/
def orphanEligible : OperationState → Bool
  | OperationStateInProgress => true
  | OperationStateFailed => true
  | _ => false

/-- Modelled from the spec: `GetOrphans` (the implementation is missing from the sources).
It returns the held operations in an eligible state whose last update is older than
`now - threshold`; eligibility follows the behaviour of the source that section 9 of the
spec and `result_test.go` record (see `orphanEligible`). -/
def GetOrphans (rs : ReconciliationResult) (now threshold : Int) : List OperationEntity :=
  rs.operations.filter (fun op => orphanEligible op.State && decide (now - op.Updated > threshold))

/-- The orphan rule in the words of section 4.1 of the spec: state `inprogress` and
`now - updated > threshold`. -/
def GetOrphansSpec (rs : ReconciliationResult) (now threshold : Int) : List OperationEntity :=
  rs.operations.filter (fun op =>
    decide (op.State = OperationStateInProgress) && decide (now - op.Updated > threshold))

/-! ## The test cases of `TestReconciliationResult`

Instants are milliseconds relative to the `time.Now()` of the test (instant `0`). -/

/-- The `testCase` struct of `result_test.go`. -/
structure testCase where
  operations : List OperationEntity
  expectedResultReconcile : Status
  expectedResultDelete : Status
  expectedOrphans : List String
deriving DecidableEq

/-- The zero `time.Time` of operations built without `Updated`: an instant about two
thousand years before the test. -/
def zeroTime : Int := -63800000000000

/-- An operation literal of the test: priority `1`, schedulingID `"schedulingID"`, no type. -/
def testOp (correlationID : String) (state : OperationState) (updated : Int) : OperationEntity :=
  { Priority := 1
    SchedulingID := "schedulingID"
    CorrelationID := correlationID
    Type_ := ""
    State := state
    Updated := updated }

/-- The ten test cases of `TestReconciliationResult`, in source order. -/
def testCases : List testCase :=
  [ { operations := [testOp "1.1" OperationStateNew (-1999)]
      expectedResultReconcile := ClusterStatusReconciling
      expectedResultDelete := ClusterStatusDeleting
      expectedOrphans := [] },
    { operations :=
        [testOp "1.1" OperationStateNew (-1999),
         testOp "1.2" OperationStateError (-2000),
         testOp "1.3" OperationStateInProgress (-2001)]
      expectedResultReconcile := ClusterStatusReconciling
      expectedResultDelete := ClusterStatusDeleting
      expectedOrphans := ["1.3"] },
    { operations :=
        [testOp "1.1" OperationStateNew 0,
         testOp "1.2" OperationStateError 0,
         testOp "1.3" OperationStateOrphan 0,
         testOp "1.4" OperationStateDone 0]
      expectedResultReconcile := ClusterStatusReconcileError
      expectedResultDelete := ClusterStatusDeleteError
      expectedOrphans := [] },
    { operations :=
        [testOp "1.1" OperationStateFailed (-3000),
         testOp "1.2" OperationStateNew 0,
         testOp "1.3" OperationStateInProgress 0]
      expectedResultReconcile := ClusterStatusReconciling
      expectedResultDelete := ClusterStatusDeleting
      expectedOrphans := ["1.1"] },
    { operations :=
        [testOp "1.1" OperationStateDone 0,
         testOp "1.2" OperationStateDone 0,
         testOp "1.3" OperationStateInProgress 0]
      expectedResultReconcile := ClusterStatusReconciling
      expectedResultDelete := ClusterStatusDeleting
      expectedOrphans := [] },
    { operations :=
        [testOp "1.1" OperationStateError 0,
         testOp "2.1" OperationStateError 0,
         testOp "1.2" OperationStateInProgress 0]
      expectedResultReconcile := ClusterStatusReconciling
      expectedResultDelete := ClusterStatusDeleting
      expectedOrphans := [] },
    { operations :=
        [testOp "1.1" OperationStateError 0,
         testOp "2.1" OperationStateError 0,
         testOp "1.2" OperationStateNew 0]
      expectedResultReconcile := ClusterStatusReconcileError
      expectedResultDelete := ClusterStatusDeleteError
      expectedOrphans := [] },
    { operations :=
        [testOp "1.1" OperationStateDone zeroTime,
         testOp "1.2" OperationStateDone zeroTime]
      expectedResultReconcile := ClusterStatusReady
      expectedResultDelete := ClusterStatusDeleted
      expectedOrphans := [] },
    { operations :=
        [testOp "1.2" OperationStateDone zeroTime,
         testOp "1.1" OperationStateError zeroTime]
      expectedResultReconcile := ClusterStatusReconcileError
      expectedResultDelete := ClusterStatusDeleteError
      expectedOrphans := [] },
    { operations :=
        [testOp "1.1" OperationStateError zeroTime,
         testOp "1.2" OperationStateError zeroTime]
      expectedResultReconcile := ClusterStatusReconcileError
      expectedResultDelete := ClusterStatusDeleteError
      expectedOrphans := [] } ]

/-- The reconciliation entity every test case starts from. -/
def testRecon : ReconciliationEntity :=
  { RuntimeID := "runtimeID", SchedulingID := "schedulingID" }

/-- The assertions of the first loop of the test (reconcile result, `ElementsMatch` on the
operations, every expected orphan detected with a threshold of one second), run at
instant `now`, with `getOrphans` as the orphan detection. -/
def reconcileAssertions
    (getOrphans : ReconciliationResult → Int → Int → List OperationEntity)
    (now : Int) (tc : testCase) : Bool :=
  match AddOperations (newReconciliationResult testRecon) tc.operations with
  | .error _ => false
  | .ok reconResult =>
    (GetResult reconResult == tc.expectedResultReconcile) &&
    (GetOperations reconResult).isPerm tc.operations &&
    tc.expectedOrphans.all (fun correlationID =>
      (getOrphans reconResult now 1000).any (fun op => op.CorrelationID == correlationID))

/-- The assertions of the second loop of the test: every operation is marked as a delete
operation first. -/
def deleteAssertions (tc : testCase) : Bool :=
  let operations := tc.operations.map (fun op => { op with Type_ := OperationTypeDelete })
  match AddOperations (newReconciliationResult testRecon) operations with
  | .error _ => false
  | .ok reconResult => GetResult reconResult == tc.expectedResultDelete

/-! # Theorems -/

/-! ## Helper lemmas: the collecting loops -/

theorem foldl_append_singleton {α β : Type} (f : α → β) (l : List α) (acc : List β) :
    l.foldl (fun xs x => xs ++ [f x]) acc = acc ++ l.map f := by
  induction l generalizing acc with
  | nil => simp
  | cons a l ih => simp [ih]

theorem GetWorkerPoolOccupancies_eq (t : Table) :
    GetWorkerPoolOccupancies t = if t = [] then .error .noRecordOccupancies else .ok t := by
  cases t with
  | nil => rfl
  | cons a l =>
    have h := foldl_append_singleton (fun r : WorkerPoolOccupancyEntity => r) (a :: l) []
    simp only [List.map_id', List.nil_append] at h
    simp [GetWorkerPoolOccupancies, selectGetMany] at h ⊢
    exact h

theorem GetComponentList_eq (t : Table) :
    GetComponentList t =
      if t = [] then .error .noRecordComponentList else .ok (t.map (fun r => r.Component)) := by
  cases t with
  | nil => rfl
  | cons a l =>
    have h := foldl_append_singleton (fun r : WorkerPoolOccupancyEntity => r.Component) (a :: l) []
    simp [GetComponentList, selectGetMany] at h ⊢
    exact h

/-- C10: both listing calls fail with their not-found error exactly on the empty table; on a
non-empty table `GetWorkerPoolOccupancies` returns the rows of the table (each once, in
order) and `GetComponentList` the component of each row, one entry per row in the same
order, duplicates kept. -/
theorem C10_listing (t : Table) :
    (GetWorkerPoolOccupancies t = .error .noRecordOccupancies ↔ t = []) ∧
    (GetComponentList t = .error .noRecordComponentList ↔ t = []) ∧
    ((∃ e, GetWorkerPoolOccupancies t = .error e) ↔ t = []) ∧
    ((∃ e, GetComponentList t = .error e) ↔ t = []) ∧
    (t ≠ [] →
      GetWorkerPoolOccupancies t = .ok t ∧
      GetComponentList t = .ok (t.map (fun r => r.Component)) ∧
      ∀ l, GetComponentList t = .ok l → l.length = t.length) := by
  rw [GetWorkerPoolOccupancies_eq, GetComponentList_eq]
  by_cases h : t = []
  · simp [h]
  · simp [h]

/-- C10 at a table of two rows of the same component. -/
theorem C10_listing_witness :
    GetWorkerPoolOccupancies [⟨"a", "c", 2, 4, 0⟩, ⟨"b", "c", 3, 6, 0⟩] =
        .ok [⟨"a", "c", 2, 4, 0⟩, ⟨"b", "c", 3, 6, 0⟩] ∧
      GetComponentList [⟨"a", "c", 2, 4, 0⟩, ⟨"b", "c", 3, 6, 0⟩] = .ok ["c", "c"] :=
  ⟨((C10_listing [⟨"a", "c", 2, 4, 0⟩, ⟨"b", "c", 3, 6, 0⟩]).2.2.2.2 (by decide)).1,
   ((C10_listing [⟨"a", "c", 2, 4, 0⟩, ⟨"b", "c", 3, 6, 0⟩]).2.2.2.2 (by decide)).2.1⟩

theorem RemoveWorkerPoolOccupancy_eq (t : Table) (p : String) :
    RemoveWorkerPoolOccupancy t p = (.ok (), t.filter (fun r => !(r.WorkerPoolID == p))) := rfl

theorem filter_ne_eq_self (t : Table) (p : String) (h : ∀ r ∈ t, r.WorkerPoolID ≠ p) :
    t.filter (fun r => !(r.WorkerPoolID == p)) = t := by
  rw [List.filter_eq_self]
  intro r hr
  simp [h r hr]

/-- C9: `RemoveWorkerPoolOccupancy` succeeds on every table; afterwards no row has the
poolID, the rows with another poolID are the same rows in the same order; when no row has
the poolID the deletion count is `0` and the table is unchanged; removing twice gives the
same table as removing once. -/
theorem C9_remove (t : Table) (p : String) :
    (RemoveWorkerPoolOccupancy t p).1 = .ok () ∧
    (∀ r ∈ (RemoveWorkerPoolOccupancy t p).2, r.WorkerPoolID ≠ p) ∧
    (RemoveWorkerPoolOccupancy t p).2 = t.filter (fun r => decide (r.WorkerPoolID ≠ p)) ∧
    (∀ r, r.WorkerPoolID ≠ p →
      List.count r (RemoveWorkerPoolOccupancy t p).2 = List.count r t) ∧
    ((∀ r ∈ t, r.WorkerPoolID ≠ p) →
      (removeDbOps t p).1 = 0 ∧ RemoveWorkerPoolOccupancy t p = (.ok (), t)) ∧
    RemoveWorkerPoolOccupancy (RemoveWorkerPoolOccupancy t p).2 p =
      RemoveWorkerPoolOccupancy t p := by
  simp only [RemoveWorkerPoolOccupancy_eq]
  refine ⟨trivial, ?_, ?_, ?_, ?_, ?_⟩
  · intro r hr
    simp [List.mem_filter] at hr
    exact hr.2
  · congr 1
    funext r
    by_cases h : r.WorkerPoolID = p <;> simp [h]
  · intro r hr
    rw [List.count_filter]
    simp [hr]
  · intro h
    refine ⟨?_, ?_⟩
    · simp only [removeDbOps, deleteWhereWorkerPoolIDExec, List.length_eq_zero,
        List.filter_eq_nil_iff]
      intro r hr
      simp [h r hr]
    · rw [filter_ne_eq_self t p h]
  · simp [List.filter_filter]

/-- C9 at a removal of a poolID that has no row. -/
theorem C9_remove_witness :
    (removeDbOps [⟨"a", "c", 2, 4, 0⟩] "b").1 = 0 ∧
      RemoveWorkerPoolOccupancy [⟨"a", "c", 2, 4, 0⟩] "b" = (.ok (), [⟨"a", "c", 2, 4, 0⟩]) :=
  (C9_remove [⟨"a", "c", 2, 4, 0⟩] "b").2.2.2.2.1 (by decide)

/-! ### Create -/

theorem find?_append_new (t : Table) (e : WorkerPoolOccupancyEntity)
    (h : ∀ r ∈ t, r.WorkerPoolID ≠ e.WorkerPoolID) :
    (t ++ [e]).find? (fun r => r.WorkerPoolID == e.WorkerPoolID) = some e := by
  induction t with
  | nil => simp
  | cons a l ih =>
    have ha : a.WorkerPoolID ≠ e.WorkerPoolID := h a (List.mem_cons_self _ _)
    have hl : ∀ r ∈ l, r.WorkerPoolID ≠ e.WorkerPoolID :=
      fun r hr => h r (List.mem_cons_of_mem _ hr)
    have hb : (a.WorkerPoolID == e.WorkerPoolID) = false := by simp [ha]
    rw [List.cons_append, List.find?_cons, hb]
    exact ih hl

/-- `CreateWorkerPoolOccupancy` in closed form. -/
theorem CreateWorkerPoolOccupancy_eq (t : Table) (now : Int) (p c : String) (k : Int) :
    CreateWorkerPoolOccupancy t now p c k =
      if ∃ r ∈ t, r.WorkerPoolID = p then (.error (.backend .uniqueViolation), t)
      else if k < 1 then (.error (.backend .checkViolation), t)
      else (.ok ⟨p, c, 0, k, now⟩, t ++ [⟨p, c, 0, k, now⟩]) := by
  by_cases hex : ∃ r ∈ t, r.WorkerPoolID = p
  · have hany : t.any (fun r => r.WorkerPoolID == p) = true := by
      simpa [List.any_eq_true] using hex
    rw [if_pos hex]
    simp [CreateWorkerPoolOccupancy, TransactionResult, insertExec, hany]
  · have hany : t.any (fun r => r.WorkerPoolID == p) = false := by
      simpa [List.any_eq_false] using hex
    rw [if_neg hex]
    by_cases hk : k < 1
    · have hk' : ¬ 0 < k := by omega
      rw [if_pos hk]
      simp [CreateWorkerPoolOccupancy, TransactionResult, insertExec, hany, checkConstraints, hk']
    · have hk' : 0 < k := by omega
      rw [if_neg hk]
      simp [CreateWorkerPoolOccupancy, TransactionResult, insertExec, hany, checkConstraints, hk']

/-- C6: `CreateWorkerPoolOccupancy` fails, with the table unchanged, exactly when a row with
the poolID exists or the capacity is below `1`; otherwise it returns the entity with the
given poolID, component and capacity and `0` running workers, the table is the old table
with that row added, and `FindWorkerPoolOccupancyByID` returns that row. -/
theorem C6_create (t : Table) (now : Int) (p c : String) (k : Int) :
    (((∃ e, (CreateWorkerPoolOccupancy t now p c k).1 = .error e) ↔
        ((∃ r ∈ t, r.WorkerPoolID = p) ∨ k < 1))) ∧
    (((∃ r ∈ t, r.WorkerPoolID = p) ∨ k < 1) → (CreateWorkerPoolOccupancy t now p c k).2 = t) ∧
    (¬ ((∃ r ∈ t, r.WorkerPoolID = p) ∨ k < 1) →
      (CreateWorkerPoolOccupancy t now p c k).1 = .ok ⟨p, c, 0, k, now⟩ ∧
      (CreateWorkerPoolOccupancy t now p c k).2 = t ++ [⟨p, c, 0, k, now⟩] ∧
      FindWorkerPoolOccupancyByID (CreateWorkerPoolOccupancy t now p c k).2 p =
        .ok ⟨p, c, 0, k, now⟩) := by
  rw [CreateWorkerPoolOccupancy_eq]
  by_cases hex : ∃ r ∈ t, r.WorkerPoolID = p
  · simp [hex]
  · by_cases hk : k < 1
    · simp [hex, hk]
    · have hne : ∀ r ∈ t, r.WorkerPoolID ≠
          (⟨p, c, 0, k, now⟩ : WorkerPoolOccupancyEntity).WorkerPoolID := by
        intro r hr heq
        exact hex ⟨r, hr, heq⟩
      have hfind := find?_append_new t ⟨p, c, 0, k, now⟩ hne
      simp only at hfind
      rw [if_neg hex, if_neg hk]
      simp [hex, hk, FindWorkerPoolOccupancyByID, selectWhereWorkerPoolIDGetOne, hfind]

/-- C6 at a create of a new poolID with capacity `6`. -/
theorem C6_create_witness :
    (CreateWorkerPoolOccupancy [⟨"a", "c", 2, 4, 0⟩] 7 "b" "c" 6).1 = .ok ⟨"b", "c", 0, 6, 7⟩ ∧
      (CreateWorkerPoolOccupancy [⟨"a", "c", 2, 4, 0⟩] 7 "b" "c" 6).2 =
        [⟨"a", "c", 2, 4, 0⟩] ++ [⟨"b", "c", 0, 6, 7⟩] ∧
      FindWorkerPoolOccupancyByID (CreateWorkerPoolOccupancy [⟨"a", "c", 2, 4, 0⟩] 7 "b" "c" 6).2
        "b" = .ok ⟨"b", "c", 0, 6, 7⟩ :=
  (C6_create [⟨"a", "c", 2, 4, 0⟩] 7 "b" "c" 6).2.2 (by decide)

/-! ### Update -/

theorem rows_eq_of_id_eq {t : Table} (hu : PoolIDsUnique t) {a b : WorkerPoolOccupancyEntity}
    (ha : a ∈ t) (hb : b ∈ t) (h : a.WorkerPoolID = b.WorkerPoolID) : a = b :=
  List.inj_on_of_nodup_map hu ha hb h

theorem find?_of_mem_unique {t : Table} (hu : PoolIDsUnique t) {row : WorkerPoolOccupancyEntity}
    (hrow : row ∈ t) :
    t.find? (fun r => r.WorkerPoolID == row.WorkerPoolID) = some row := by
  cases hf : t.find? (fun r => r.WorkerPoolID == row.WorkerPoolID) with
  | none =>
    rw [List.find?_eq_none] at hf
    have := hf row hrow
    simp at this
  | some r =>
    have hmem : r ∈ t := List.mem_of_find?_eq_some hf
    have hid := List.find?_some hf
    simp only [beq_iff_eq] at hid
    rw [rows_eq_of_id_eq hu hmem hrow hid]

/-- `UpdateWorkerPoolOccupancy` in closed form, by the row the lookup finds. -/
theorem UpdateWorkerPoolOccupancy_eq (t : Table) (p : String) (n : Int) :
    UpdateWorkerPoolOccupancy t p n =
      match t.find? (fun r => r.WorkerPoolID == p) with
      | none => (.error (.backend .noRows), t)
      | some occ =>
        if occ.RunningWorkers = n then (.ok (), t)
        else if occ.WorkerPoolCapacity < n then
          (.error (.invalidRunningWorkers n occ.WorkerPoolCapacity), t)
        else if 0 < occ.WorkerPoolCapacity ∧ 0 ≤ n then
          (.ok (), t.map (fun r =>
            if r.WorkerPoolID == p then { occ with RunningWorkers := n } else r))
        else (.error (.backend .checkViolation), t) := by
  cases hf : t.find? (fun r => r.WorkerPoolID == p) with
  | none =>
    simp [UpdateWorkerPoolOccupancy, Transaction, FindWorkerPoolOccupancyByID,
      selectWhereWorkerPoolIDGetOne, hf]
  | some occ =>
    have hmem : occ ∈ t := List.mem_of_find?_eq_some hf
    have hid := List.find?_some hf
    have hany : t.any (fun r => r.WorkerPoolID == p) = true :=
      List.any_eq_true.mpr ⟨occ, hmem, hid⟩
    by_cases h1 : occ.RunningWorkers = n
    · simp [UpdateWorkerPoolOccupancy, Transaction, FindWorkerPoolOccupancyByID,
        selectWhereWorkerPoolIDGetOne, hf, h1]
    · by_cases h2 : occ.WorkerPoolCapacity < n
      · simp [UpdateWorkerPoolOccupancy, Transaction, FindWorkerPoolOccupancyByID,
          selectWhereWorkerPoolIDGetOne, hf, h1, h2]
      · by_cases h3 : 0 < occ.WorkerPoolCapacity ∧ 0 ≤ n
        · simp [UpdateWorkerPoolOccupancy, Transaction, FindWorkerPoolOccupancyByID,
            selectWhereWorkerPoolIDGetOne, hf, h1, h2, h3, updateWhereWorkerPoolIDExec, hany,
            checkConstraints]
        · have h3' : ¬ (0 < occ.WorkerPoolCapacity ∧ 0 ≤ n) := h3
          simp only [not_and_or] at h3
          rcases h3 with h3 | h3 <;>
          simp [UpdateWorkerPoolOccupancy, Transaction, FindWorkerPoolOccupancyByID,
            selectWhereWorkerPoolIDGetOne, hf, h1, h2, h3, h3', updateWhereWorkerPoolIDExec, hany,
            checkConstraints]

/-- An update above the capacity of a row whose running workers do not exceed its capacity
fails with the invalid-number error and leaves the table unchanged. -/
theorem UpdateWorkerPoolOccupancy_above_capacity {t : Table} {p : String} {n : Int}
    {row : WorkerPoolOccupancyEntity} (hu : PoolIDsUnique t) (hrow : row ∈ t)
    (hid : row.WorkerPoolID = p) (hinv : row.RunningWorkers ≤ row.WorkerPoolCapacity)
    (hn : row.WorkerPoolCapacity < n) :
    UpdateWorkerPoolOccupancy t p n =
      (.error (.invalidRunningWorkers n row.WorkerPoolCapacity), t) := by
  have hf := find?_of_mem_unique hu hrow
  rw [hid] at hf
  have h1 : ¬ row.RunningWorkers = n := by omega
  rw [UpdateWorkerPoolOccupancy_eq, hf]
  simp [h1, hn]

/-- An update to the stored number of running workers succeeds and leaves the table
unchanged (the equality test comes before the capacity test). -/
theorem UpdateWorkerPoolOccupancy_same_value {t : Table} {row : WorkerPoolOccupancyEntity}
    (hu : PoolIDsUnique t) (hrow : row ∈ t) :
    UpdateWorkerPoolOccupancy t row.WorkerPoolID row.RunningWorkers = (.ok (), t) := by
  rw [UpdateWorkerPoolOccupancy_eq, find?_of_mem_unique hu hrow]
  simp

/-- C7 (counterexample): the table holds one row for `"p"` with capacity `3` and no running
workers; the update to `-1`, a value not above the capacity, fails on the row check of the
schema and the table is unchanged. -/
theorem C7_counterexample :
    SchemaOK [⟨"p", "c", 0, 3, 0⟩] ∧
      (-1 : Int) ≤ (⟨"p", "c", 0, 3, 0⟩ : WorkerPoolOccupancyEntity).WorkerPoolCapacity ∧
      UpdateWorkerPoolOccupancy [⟨"p", "c", 0, 3, 0⟩] "p" (-1) =
        (.error (.backend .checkViolation), [⟨"p", "c", 0, 3, 0⟩]) := by
  decide

theorem map_update_eq {t : Table} (hu : PoolIDsUnique t) {row : WorkerPoolOccupancyEntity}
    (hrow : row ∈ t) (n : Int) :
    t.map (fun r =>
        if r.WorkerPoolID == row.WorkerPoolID then { row with RunningWorkers := n } else r) =
      t.map (fun r =>
        if r.WorkerPoolID = row.WorkerPoolID then { r with RunningWorkers := n } else r) := by
  apply List.map_congr_left
  intro r hr
  by_cases h : r.WorkerPoolID = row.WorkerPoolID
  · simp [h, rows_eq_of_id_eq hu hr hrow h]
  · simp [h]

theorem find?_map_update {t : Table} {p : String} {occ : WorkerPoolOccupancyEntity}
    (hf : t.find? (fun r => r.WorkerPoolID == p) = some occ) (n : Int) :
    (t.map (fun r =>
        if r.WorkerPoolID == p then { occ with RunningWorkers := n } else r)).find?
      (fun r => r.WorkerPoolID == p) = some { occ with RunningWorkers := n } := by
  induction t with
  | nil => simp at hf
  | cons a l ih =>
    by_cases ha : a.WorkerPoolID = p
    · have hocc : occ.WorkerPoolID = p := by simpa using List.find?_some hf
      simp [List.find?_cons, ha, hocc]
    · have hb : (a.WorkerPoolID == p) = false := by simp [ha]
      rw [List.find?_cons, hb] at hf
      simp only [List.map_cons, hb, Bool.false_eq_true, if_false, List.find?_cons]
      exact ih hf

/-- C7 (amended): in a table that satisfies the schema and holds a row for `p`, an update of
`p` to a value `n` with `0 ≤ n ≤ capacity` succeeds; afterwards the row for `p` has `n`
running workers and its other fields unchanged, every other row is unchanged, the lookup of
`p` returns the updated row, and when `n` is the stored value the table is unchanged. -/
theorem C7_update_within_capacity (t : Table) (p : String) (n : Int)
    (row : WorkerPoolOccupancyEntity) (hs : SchemaOK t) (hrow : row ∈ t)
    (hid : row.WorkerPoolID = p) (h0 : 0 ≤ n) (hn : n ≤ row.WorkerPoolCapacity) :
    UpdateWorkerPoolOccupancy t p n =
        (.ok (), t.map (fun r =>
          if r.WorkerPoolID = p then { r with RunningWorkers := n } else r)) ∧
      FindWorkerPoolOccupancyByID (UpdateWorkerPoolOccupancy t p n).2 p =
        .ok { row with RunningWorkers := n } ∧
      (n = row.RunningWorkers → UpdateWorkerPoolOccupancy t p n = (.ok (), t)) := by
  subst hid
  have hf := find?_of_mem_unique hs.1 hrow
  have hcap : 0 < row.WorkerPoolCapacity := by
    have := hs.2 row hrow
    simp [checkConstraints] at this
    exact this.1
  have hmap := map_update_eq hs.1 hrow n
  have hfm := find?_map_update hf n
  have hn' : ¬ row.WorkerPoolCapacity < n := by omega
  have hnoop : row.RunningWorkers = n →
      t.map (fun r =>
        if r.WorkerPoolID = row.WorkerPoolID then { r with RunningWorkers := n } else r) = t := by
    intro h1
    conv_rhs => rw [← List.map_id t]
    apply List.map_congr_left
    intro r hr
    by_cases h : r.WorkerPoolID = row.WorkerPoolID
    · have hrr : r = row := rows_eq_of_id_eq hs.1 hr hrow h
      subst hrr
      simp [← h1]
    · simp [h]
  have hupd : UpdateWorkerPoolOccupancy t row.WorkerPoolID n =
      (.ok (), t.map (fun r =>
        if r.WorkerPoolID = row.WorkerPoolID then { r with RunningWorkers := n } else r)) := by
    rw [UpdateWorkerPoolOccupancy_eq, hf]
    dsimp only
    by_cases h1 : row.RunningWorkers = n
    · rw [if_pos h1, hnoop h1]
    · rw [if_neg h1, if_neg hn', if_pos ⟨hcap, h0⟩, hmap]
  refine ⟨hupd, ?_, ?_⟩
  · rw [hupd, ← hmap]
    dsimp only
    simp only [FindWorkerPoolOccupancyByID, selectWhereWorkerPoolIDGetOne, hfm]
  · intro h1
    rw [hupd, hnoop h1.symm]

/-- C7 (amended) at a table of two rows and an update of `"p"` to `2` within its capacity `3`. -/
theorem C7_update_within_capacity_witness :
    UpdateWorkerPoolOccupancy [⟨"a", "c", 2, 4, 0⟩, ⟨"p", "d", 1, 3, 9⟩] "p" 2 =
      (.ok (), [⟨"a", "c", 2, 4, 0⟩, ⟨"p", "d", 2, 3, 9⟩]) :=
  (C7_update_within_capacity [⟨"a", "c", 2, 4, 0⟩, ⟨"p", "d", 1, 3, 9⟩] "p" 2 ⟨"p", "d", 1, 3, 9⟩
    (by decide) (by decide) rfl (by decide) (by decide)).1

/-! ### Reachable tables -/

theorem CreateWorkerPoolOccupancy_table (t : Table) (now : Int) (p c : String) (k : Int) :
    (CreateWorkerPoolOccupancy t now p c k).2 =
      if (∃ r ∈ t, r.WorkerPoolID = p) ∨ k < 1 then t else t ++ [⟨p, c, 0, k, now⟩] := by
  rw [CreateWorkerPoolOccupancy_eq]
  by_cases hex : ∃ r ∈ t, r.WorkerPoolID = p
  · simp [hex]
  · by_cases hk : k < 1
    · simp [hex, hk]
    · simp [hex, hk]

theorem UpdateWorkerPoolOccupancy_table (t : Table) (p : String) (n : Int) :
    (UpdateWorkerPoolOccupancy t p n).2 = t ∨
      ∃ occ ∈ t, occ.WorkerPoolID = p ∧ 0 < occ.WorkerPoolCapacity ∧ 0 ≤ n ∧
        n ≤ occ.WorkerPoolCapacity ∧
        (UpdateWorkerPoolOccupancy t p n).2 =
          t.map (fun r => if r.WorkerPoolID == p then { occ with RunningWorkers := n } else r) := by
  rw [UpdateWorkerPoolOccupancy_eq]
  cases hf : t.find? (fun r => r.WorkerPoolID == p) with
  | none => exact Or.inl rfl
  | some occ =>
    have hmem : occ ∈ t := List.mem_of_find?_eq_some hf
    have hid : occ.WorkerPoolID = p := by simpa using List.find?_some hf
    dsimp only
    by_cases h1 : occ.RunningWorkers = n
    · rw [if_pos h1]; exact Or.inl rfl
    · rw [if_neg h1]
      by_cases h2 : occ.WorkerPoolCapacity < n
      · rw [if_pos h2]; exact Or.inl rfl
      · rw [if_neg h2]
        by_cases h3 : 0 < occ.WorkerPoolCapacity ∧ 0 ≤ n
        · rw [if_pos h3]
          exact Or.inr ⟨occ, hmem, hid, h3.1, h3.2, by omega, rfl⟩
        · rw [if_neg h3]; exact Or.inl rfl

theorem map_update_ids (t : Table) (p : String) (e : WorkerPoolOccupancyEntity)
    (he : e.WorkerPoolID = p) :
    (t.map (fun r => if r.WorkerPoolID == p then e else r)).map (fun r => r.WorkerPoolID) =
      t.map (fun r => r.WorkerPoolID) := by
  rw [List.map_map]
  apply List.map_congr_left
  intro r _
  by_cases h : r.WorkerPoolID = p
  · simp [h, he]
  · simp [h]

theorem applyCall_ReachInv (t : Table) (call : Call) (h : ReachInv t) :
    ReachInv (applyCall t call) := by
  obtain ⟨hu, hinv⟩ := h
  cases call with
  | create now p c k =>
    simp only [applyCall, CreateWorkerPoolOccupancy_table]
    by_cases hc : (∃ r ∈ t, r.WorkerPoolID = p) ∨ k < 1
    · rw [if_pos hc]; exact ⟨hu, hinv⟩
    · rw [if_neg hc]
      simp only [not_or, not_exists, not_and, not_lt] at hc
      refine ⟨?_, ?_⟩
      · unfold PoolIDsUnique at hu ⊢
        rw [List.map_append, List.nodup_append]
        refine ⟨hu, by simp, ?_⟩
        intro a ha hb
        simp only [List.map_cons, List.map_nil, List.mem_singleton] at hb
        obtain ⟨r, hr, hra⟩ := List.mem_map.mp ha
        exact hc.1 r hr (hra.trans hb)
      · intro r hr
        rcases List.mem_append.mp hr with hr | hr
        · exact hinv r hr
        · simp only [List.mem_singleton] at hr
          subst hr
          exact ⟨le_refl _, by show (0 : Int) ≤ k; omega, hc.2⟩
  | update p n =>
    simp only [applyCall]
    rcases UpdateWorkerPoolOccupancy_table t p n with h | ⟨occ, hmem, hid, hcap, h0, hn, h⟩
    · rw [h]; exact ⟨hu, hinv⟩
    · rw [h]
      refine ⟨?_, ?_⟩
      · unfold PoolIDsUnique at hu ⊢
        have hids := map_update_ids t p { occ with RunningWorkers := n } hid
        rw [hids]
        exact hu
      · intro r hr
        obtain ⟨r0, hr0, hr0e⟩ := List.mem_map.mp hr
        by_cases hp : r0.WorkerPoolID = p
        · simp only [hp, beq_self_eq_true, if_true] at hr0e
          subst hr0e
          exact ⟨h0, hn, by show 1 ≤ occ.WorkerPoolCapacity; omega⟩
        · have hb : (r0.WorkerPoolID == p) = false := by simp [hp]
          simp only [hb, Bool.false_eq_true, if_false] at hr0e
          subst hr0e
          exact hinv _ hr0
  | remove p =>
    simp only [applyCall, RemoveWorkerPoolOccupancy_eq]
    refine ⟨?_, ?_⟩
    · unfold PoolIDsUnique at hu ⊢
      exact hu.sublist (List.Sublist.map _ (List.filter_sublist t))
    · intro r hr
      exact hinv r (List.mem_of_mem_filter hr)

theorem foldl_applyCall_ReachInv (calls : List Call) (t : Table) (h : ReachInv t) :
    ReachInv (calls.foldl applyCall t) := by
  induction calls generalizing t with
  | nil => exact h
  | cons call calls ih => exact ih _ (applyCall_ReachInv t call h)

theorem runCalls_ReachInv (calls : List Call) : ReachInv (runCalls calls) :=
  foldl_applyCall_ReachInv calls [] ⟨by simp [PoolIDsUnique], by intro r hr; simp at hr⟩

theorem applyCall_capacity (t : Table) (call : Call) (hu : PoolIDsUnique t)
    (r : WorkerPoolOccupancyEntity) (hr : r ∈ t) (r' : WorkerPoolOccupancyEntity)
    (hr' : r' ∈ applyCall t call) (hid : r'.WorkerPoolID = r.WorkerPoolID) :
    r'.WorkerPoolCapacity = r.WorkerPoolCapacity := by
  cases call with
  | create now p c k =>
    simp only [applyCall, CreateWorkerPoolOccupancy_table] at hr'
    by_cases hc : (∃ r ∈ t, r.WorkerPoolID = p) ∨ k < 1
    · rw [if_pos hc] at hr'
      rw [rows_eq_of_id_eq hu hr' hr hid]
    · rw [if_neg hc] at hr'
      simp only [not_or, not_exists, not_and, not_lt] at hc
      rcases List.mem_append.mp hr' with h | h
      · rw [rows_eq_of_id_eq hu h hr hid]
      · simp only [List.mem_singleton] at h
        subst h
        exact absurd hid.symm (hc.1 r hr)
  | update p n =>
    simp only [applyCall] at hr'
    rcases UpdateWorkerPoolOccupancy_table t p n with h | ⟨occ, hmem, hocc, _, _, _, h⟩
    · rw [h] at hr'
      rw [rows_eq_of_id_eq hu hr' hr hid]
    · rw [h] at hr'
      obtain ⟨r0, hr0, hr0e⟩ := List.mem_map.mp hr'
      by_cases hp : r0.WorkerPoolID = p
      · simp only [hp, beq_self_eq_true, if_true] at hr0e
        subst hr0e
        have : occ = r := rows_eq_of_id_eq hu hmem hr hid
        rw [← this]
      · have hb : (r0.WorkerPoolID == p) = false := by simp [hp]
        simp only [hb, Bool.false_eq_true, if_false] at hr0e
        subst hr0e
        rw [rows_eq_of_id_eq hu hr0 hr hid]
  | remove p =>
    simp only [applyCall, RemoveWorkerPoolOccupancy_eq] at hr'
    rw [rows_eq_of_id_eq hu (List.mem_of_mem_filter hr') hr hid]

/-- C4: every table reached from the empty table by a sequence of create, update and remove
calls with arbitrary arguments satisfies `0 ≤ runningWorkers ≤ capacity` and `capacity ≥ 1`
on every row, and a further call leaves the capacity of every row it keeps as it was. -/
theorem C4_reachable_invariant (calls : List Call) :
    (∀ r ∈ runCalls calls, 0 ≤ r.RunningWorkers ∧ r.RunningWorkers ≤ r.WorkerPoolCapacity ∧
      1 ≤ r.WorkerPoolCapacity) ∧
    (∀ call : Call, ∀ r ∈ runCalls calls, ∀ r' ∈ applyCall (runCalls calls) call,
      r'.WorkerPoolID = r.WorkerPoolID → r'.WorkerPoolCapacity = r.WorkerPoolCapacity) :=
  ⟨(runCalls_ReachInv calls).2,
   fun call r hr r' hr' hid =>
     applyCall_capacity (runCalls calls) call (runCalls_ReachInv calls).1 r hr r' hr' hid⟩

/-- C3: in a store that holds a row for `p`, an update of `p` to a value above the capacity
of that row fails with the invalid-number error and leaves every row of the store unchanged.
This holds on every table with unique poolIDs in which the row satisfies
`runningWorkers ≤ capacity`, and so on every table reached from the empty table by create,
update and remove calls. -/
theorem C3_update_above_capacity (t : Table) (p : String) (n : Int)
    (row : WorkerPoolOccupancyEntity) (hrow : row ∈ t) (hid : row.WorkerPoolID = p)
    (hn : row.WorkerPoolCapacity < n) :
    (PoolIDsUnique t → row.RunningWorkers ≤ row.WorkerPoolCapacity →
      UpdateWorkerPoolOccupancy t p n =
        (.error (.invalidRunningWorkers n row.WorkerPoolCapacity), t)) ∧
    ((∃ calls, t = runCalls calls) →
      UpdateWorkerPoolOccupancy t p n =
        (.error (.invalidRunningWorkers n row.WorkerPoolCapacity), t)) := by
  refine ⟨fun hu hinv => UpdateWorkerPoolOccupancy_above_capacity hu hrow hid hinv hn, ?_⟩
  rintro ⟨calls, rfl⟩
  have h := runCalls_ReachInv calls
  exact UpdateWorkerPoolOccupancy_above_capacity h.1 hrow hid (h.2 row hrow).2.1 hn

/-- C3 at the table reached by creating the pools `"a"` and `"p"` (capacities `4` and `3`)
and setting their running workers to `2` and `1`: the update of `"p"` to `5` fails and the
table is unchanged. -/
theorem C3_update_above_capacity_witness :
    runCalls [.create 0 "a" "c" 4, .create 0 "p" "c" 3, .update "a" 2, .update "p" 1] =
        [⟨"a", "c", 2, 4, 0⟩, ⟨"p", "c", 1, 3, 0⟩] ∧
      UpdateWorkerPoolOccupancy [⟨"a", "c", 2, 4, 0⟩, ⟨"p", "c", 1, 3, 0⟩] "p" 5 =
        (.error (.invalidRunningWorkers 5 3), [⟨"a", "c", 2, 4, 0⟩, ⟨"p", "c", 1, 3, 0⟩]) :=
  ⟨by decide,
   (C3_update_above_capacity [⟨"a", "c", 2, 4, 0⟩, ⟨"p", "c", 1, 3, 0⟩] "p" 5 ⟨"p", "c", 1, 3, 0⟩
    (by decide) rfl (by decide)).1 (by decide) (by decide)⟩

/-! ### Mean occupancy -/

theorem wrap64_eq_self (x : Int) (h0 : 0 ≤ x) (h1 : x < 2 ^ 63) : wrap64 x = x := by
  unfold wrap64
  have : (x + 2 ^ 63) % 2 ^ 64 = x + 2 ^ 63 := Int.emod_eq_of_lt (by omega) (by omega)
  omega

/-- The wrapped value is an `int64`. -/
theorem wrap64_range (x : Int) : -2 ^ 63 ≤ wrap64 x ∧ wrap64 x < 2 ^ 63 := by
  unfold wrap64
  have h1 : 0 ≤ (x + 2 ^ 63) % 2 ^ 64 := Int.emod_nonneg _ (by norm_num)
  have h2 : (x + 2 ^ 63) % 2 ^ 64 < 2 ^ 64 := Int.emod_lt_of_pos _ (by norm_num)
  constructor <;> omega

/-- Both accumulators of the loop are `int64` values, whatever the rows. -/
theorem aggregate_range (rows : List WorkerPoolOccupancyEntity) :
    (-2 ^ 63 ≤ (aggregate rows).1 ∧ (aggregate rows).1 < 2 ^ 63) ∧
      (-2 ^ 63 ≤ (aggregate rows).2 ∧ (aggregate rows).2 < 2 ^ 63) := by
  unfold aggregate
  induction rows using List.reverseRecOn with
  | nil => simp
  | append_singleton l a _ =>
    rw [List.foldl_append]
    exact ⟨wrap64_range _, wrap64_range _⟩

theorem foldl_aggregate (rows : List WorkerPoolOccupancyEntity) (a b : Int)
    (ha : 0 ≤ a) (hab : a ≤ b)
    (hrows : ∀ r ∈ rows, 0 ≤ r.RunningWorkers ∧ r.RunningWorkers ≤ r.WorkerPoolCapacity)
    (hfit : b + sumCapacity rows < 2 ^ 63) :
    rows.foldl (fun acc occupancy =>
        (wrap64 (acc.1 + occupancy.RunningWorkers),
         wrap64 (acc.2 + occupancy.WorkerPoolCapacity))) (a, b) =
      (a + sumRunningWorkers rows, b + sumCapacity rows) := by
  induction rows generalizing a b with
  | nil => simp [sumRunningWorkers, sumCapacity]
  | cons r rows ih =>
    have hr := hrows r (List.mem_cons_self _ _)
    have hrest : ∀ x ∈ rows, 0 ≤ x.RunningWorkers ∧ x.RunningWorkers ≤ x.WorkerPoolCapacity :=
      fun x hx => hrows x (List.mem_cons_of_mem _ hx)
    have hsum0 : 0 ≤ sumCapacity rows := by
      unfold sumCapacity
      apply List.sum_nonneg
      intro x hx
      obtain ⟨y, hy, rfl⟩ := List.mem_map.mp hx
      have := hrest y hy
      omega
    have hc : sumCapacity (r :: rows) = r.WorkerPoolCapacity + sumCapacity rows := by
      simp [sumCapacity]
    have hu : sumRunningWorkers (r :: rows) = r.RunningWorkers + sumRunningWorkers rows := by
      simp [sumRunningWorkers]
    rw [hc] at hfit
    have w1 : wrap64 (a + r.RunningWorkers) = a + r.RunningWorkers :=
      wrap64_eq_self _ (by omega) (by omega)
    have w2 : wrap64 (b + r.WorkerPoolCapacity) = b + r.WorkerPoolCapacity :=
      wrap64_eq_self _ (by omega) (by omega)
    rw [List.foldl_cons]
    simp only [w1, w2]
    rw [ih (a + r.RunningWorkers) (b + r.WorkerPoolCapacity) (by omega) (by omega) hrest
      (by omega), hc, hu]
    simp only [Prod.mk.injEq]
    constructor <;> ring

theorem sums_bounds (rows : List WorkerPoolOccupancyEntity)
    (hrows : ∀ r ∈ rows, 0 ≤ r.RunningWorkers ∧ r.RunningWorkers ≤ r.WorkerPoolCapacity ∧
      1 ≤ r.WorkerPoolCapacity) :
    0 ≤ sumRunningWorkers rows ∧ sumRunningWorkers rows ≤ sumCapacity rows ∧
      (rows.length : Int) ≤ sumCapacity rows := by
  induction rows with
  | nil => simp [sumRunningWorkers, sumCapacity]
  | cons r rows ih =>
    have hr := hrows r (List.mem_cons_self _ _)
    have := ih (fun x hx => hrows x (List.mem_cons_of_mem _ hx))
    simp only [sumRunningWorkers, sumCapacity, List.map_cons, List.sum_cons,
      List.length_cons] at this ⊢
    push_cast
    omega

/-! ### binary64 rounding -/

theorem roundHalfEven_sub_le (m : ℚ) : |(roundHalfEven m : ℚ) - m| ≤ 1 / 2 := by
  have h1 := Int.floor_le m
  have h2 := Int.lt_floor_add_one m
  unfold roundHalfEven
  split_ifs with a b c
  · rw [abs_le]; constructor <;> linarith
  · push_cast; rw [abs_le]; constructor <;> linarith
  · rw [abs_le]; constructor <;> linarith
  · push_cast; rw [abs_le]; constructor <;> linarith

theorem roundHalfEven_intCast (n : ℤ) : roundHalfEven (n : ℚ) = n := by
  unfold roundHalfEven
  simp

theorem roundHalfEven_mono {a b : ℚ} (h : a ≤ b) : roundHalfEven a ≤ roundHalfEven b := by
  have hf : ⌊a⌋ ≤ ⌊b⌋ := Int.floor_mono h
  have ha1 := Int.floor_le a
  have ha2 := Int.lt_floor_add_one a
  have hb1 := Int.floor_le b
  have hb2 := Int.lt_floor_add_one b
  rcases hf.lt_or_eq with hlt | heq
  · -- roundHalfEven a ≤ ⌊a⌋ + 1 ≤ ⌊b⌋ ≤ roundHalfEven b
    have h1 : roundHalfEven a ≤ ⌊a⌋ + 1 := by
      unfold roundHalfEven; split_ifs <;> omega
    have h2 : ⌊b⌋ ≤ roundHalfEven b := by
      unfold roundHalfEven; split_ifs <;> omega
    omega
  · unfold roundHalfEven
    rw [heq]
    rw [heq] at ha1 ha2
    split_ifs <;> first | omega | (exfalso; linarith)


theorem two_zpow_pos (k : ℤ) : (0 : ℚ) < 2 ^ k := zpow_pos (by norm_num) k

theorem log_bounds {x : ℚ} (hx : 0 < x) :
    (2 : ℚ) ^ Int.log 2 x ≤ x ∧ x < (2 : ℚ) ^ (Int.log 2 x + 1) := by
  have h1 := Int.zpow_log_le_self (b := 2) (r := x) (by norm_num) hx
  have h2 := Int.lt_zpow_succ_log_self (b := 2) (by norm_num) x
  simp only [Nat.cast_ofNat] at h1 h2
  exact ⟨h1, h2⟩

theorem log_eq_of_bounds {x : ℚ} {e : ℤ} (h1 : (2 : ℚ) ^ e ≤ x) (h2 : x < (2 : ℚ) ^ (e + 1)) :
    Int.log 2 x = e := by
  have hx : 0 < x := lt_of_lt_of_le (two_zpow_pos e) h1
  have a : e ≤ Int.log 2 x := by
    rw [← Int.zpow_le_iff_le_log (b := 2) (by norm_num) hx]
    simpa using h1
  have b : Int.log 2 x < e + 1 := by
    rw [← Int.lt_zpow_iff_log_lt (b := 2) (by norm_num) hx]
    simpa using h2
  omega

/-- The scaled significand of a positive rational lies in `[2^52, 2^53)`. -/
theorem significand_bounds {x : ℚ} (hx : 0 < x) :
    (2 : ℚ) ^ (52 : ℤ) ≤ x / 2 ^ (Int.log 2 x - 52) ∧
      x / 2 ^ (Int.log 2 x - 52) < (2 : ℚ) ^ (53 : ℤ) := by
  obtain ⟨h1, h2⟩ := log_bounds hx
  have hs := two_zpow_pos (Int.log 2 x - 52)
  constructor
  · rw [le_div_iff₀ hs, ← zpow_add₀ (by norm_num : (2 : ℚ) ≠ 0)]
    have : (52 : ℤ) + (Int.log 2 x - 52) = Int.log 2 x := by ring
    rw [this]; exact h1
  · rw [div_lt_iff₀ hs, ← zpow_add₀ (by norm_num : (2 : ℚ) ≠ 0)]
    have : (53 : ℤ) + (Int.log 2 x - 52) = Int.log 2 x + 1 := by ring
    rw [this]; exact h2

theorem roundHalfEven_significand {x : ℚ} (hx : 0 < x) :
    (2 : ℤ) ^ 52 ≤ roundHalfEven (x / 2 ^ (Int.log 2 x - 52)) ∧
      roundHalfEven (x / 2 ^ (Int.log 2 x - 52)) ≤ (2 : ℤ) ^ 53 := by
  obtain ⟨h1, h2⟩ := significand_bounds hx
  constructor
  · have := roundHalfEven_mono h1
    have e : ((2 : ℚ) ^ (52 : ℤ)) = (((2 : ℤ) ^ 52 : ℤ) : ℚ) := by norm_num
    rw [e, roundHalfEven_intCast] at this
    exact this
  · have := roundHalfEven_mono h2.le
    have e : ((2 : ℚ) ^ (53 : ℤ)) = (((2 : ℤ) ^ 53 : ℤ) : ℚ) := by norm_num
    rw [e, roundHalfEven_intCast] at this
    exact this

/-- The rounded value stays in the binade of the argument. -/
theorem roundFloat64Pos_bounds {x : ℚ} (hx : 0 < x) :
    (2 : ℚ) ^ Int.log 2 x ≤ roundFloat64Pos x ∧
      roundFloat64Pos x ≤ (2 : ℚ) ^ (Int.log 2 x + 1) := by
  obtain ⟨h1, h2⟩ := roundHalfEven_significand hx
  have hs := two_zpow_pos (Int.log 2 x - 52)
  have q1 : ((2 : ℚ) ^ (52 : ℤ)) ≤ (roundHalfEven (x / 2 ^ (Int.log 2 x - 52)) : ℚ) := by
    have : (((2 : ℤ) ^ 52 : ℤ) : ℚ) ≤ (roundHalfEven (x / 2 ^ (Int.log 2 x - 52)) : ℚ) := by
      exact_mod_cast h1
    refine le_trans (le_of_eq ?_) this
    norm_num
  have q2 : (roundHalfEven (x / 2 ^ (Int.log 2 x - 52)) : ℚ) ≤ ((2 : ℚ) ^ (53 : ℤ)) := by
    have : (roundHalfEven (x / 2 ^ (Int.log 2 x - 52)) : ℚ) ≤ (((2 : ℤ) ^ 53 : ℤ) : ℚ) := by
      exact_mod_cast h2
    refine le_trans this (le_of_eq ?_)
    norm_num
  unfold roundFloat64Pos
  constructor
  · have e : (2 : ℚ) ^ Int.log 2 x = 2 ^ (52 : ℤ) * 2 ^ (Int.log 2 x - 52) := by
      rw [← zpow_add₀ (by norm_num : (2 : ℚ) ≠ 0)]; congr 1; ring
    rw [e]
    exact mul_le_mul_of_nonneg_right q1 hs.le
  · have e : (2 : ℚ) ^ (Int.log 2 x + 1) = 2 ^ (53 : ℤ) * 2 ^ (Int.log 2 x - 52) := by
      rw [← zpow_add₀ (by norm_num : (2 : ℚ) ≠ 0)]; congr 1; ring
    rw [e]
    exact mul_le_mul_of_nonneg_right q2 hs.le

theorem roundFloat64Pos_pos {x : ℚ} (hx : 0 < x) : 0 < roundFloat64Pos x :=
  lt_of_lt_of_le (two_zpow_pos _) (roundFloat64Pos_bounds hx).1

/-- Relative error of one rounding: at most `2^-53`. -/
theorem roundFloat64Pos_error {x : ℚ} (hx : 0 < x) :
    |roundFloat64Pos x - x| ≤ x / 2 ^ 53 := by
  obtain ⟨h1, _⟩ := log_bounds hx
  have hs := two_zpow_pos (Int.log 2 x - 52)
  have hr := roundHalfEven_sub_le (x / 2 ^ (Int.log 2 x - 52))
  have hx' : x = x / 2 ^ (Int.log 2 x - 52) * 2 ^ (Int.log 2 x - 52) := by
    field_simp
  have e1 : roundFloat64Pos x - x =
      ((roundHalfEven (x / 2 ^ (Int.log 2 x - 52)) : ℚ) - x / 2 ^ (Int.log 2 x - 52)) *
        2 ^ (Int.log 2 x - 52) := by
    unfold roundFloat64Pos
    rw [sub_mul, ← hx']
  rw [e1, abs_mul, abs_of_pos hs]
  have e2 : (2 : ℚ) ^ (Int.log 2 x - 52) = 2 ^ Int.log 2 x / 2 ^ 52 := by
    rw [zpow_sub₀ (by norm_num : (2 : ℚ) ≠ 0)]; norm_num
  calc |(roundHalfEven (x / 2 ^ (Int.log 2 x - 52)) : ℚ) - x / 2 ^ (Int.log 2 x - 52)| *
        2 ^ (Int.log 2 x - 52)
      ≤ 1 / 2 * 2 ^ (Int.log 2 x - 52) := mul_le_mul_of_nonneg_right hr hs.le
    _ = 2 ^ Int.log 2 x / 2 ^ 53 := by rw [e2]; ring
    _ ≤ x / 2 ^ 53 := by
        apply div_le_div_of_nonneg_right h1
        positivity

theorem roundFloat64Pos_mono {x y : ℚ} (hx : 0 < x) (h : x ≤ y) :
    roundFloat64Pos x ≤ roundFloat64Pos y := by
  have hy : 0 < y := lt_of_lt_of_le hx h
  have hlog : Int.log 2 x ≤ Int.log 2 y := Int.log_mono_right hx h
  rcases hlog.lt_or_eq with hlt | heq
  · calc roundFloat64Pos x ≤ (2 : ℚ) ^ (Int.log 2 x + 1) := (roundFloat64Pos_bounds hx).2
      _ ≤ (2 : ℚ) ^ Int.log 2 y := zpow_le_zpow_right₀ (by norm_num) (by omega)
      _ ≤ roundFloat64Pos y := (roundFloat64Pos_bounds hy).1
  · unfold roundFloat64Pos
    rw [heq]
    have hs := two_zpow_pos (Int.log 2 y - 52)
    apply mul_le_mul_of_nonneg_right _ hs.le
    have : roundHalfEven (x / 2 ^ (Int.log 2 y - 52)) ≤ roundHalfEven (y / 2 ^ (Int.log 2 y - 52)) :=
      roundHalfEven_mono (div_le_div_of_nonneg_right h hs.le)
    exact_mod_cast this

theorem roundFloat64_nonneg {x : ℚ} (hx : 0 ≤ x) : 0 ≤ roundFloat64 x := by
  unfold roundFloat64
  split_ifs with a b
  · exact (roundFloat64Pos_pos a).le
  · exact absurd b (not_lt.mpr hx)
  · exact le_refl _

theorem roundFloat64_mono {x y : ℚ} (hx : 0 ≤ x) (h : x ≤ y) :
    roundFloat64 x ≤ roundFloat64 y := by
  rcases hx.lt_or_eq with hpos | hzero
  · have hy : 0 < y := lt_of_lt_of_le hpos h
    simp only [roundFloat64, hpos, hy, if_true]
    exact roundFloat64Pos_mono hpos h
  · rw [← hzero]
    have : roundFloat64 0 = 0 := by simp [roundFloat64]
    rw [this]
    exact roundFloat64_nonneg (hx.trans h)

theorem roundFloat64_error {x : ℚ} (hx : 0 ≤ x) : |roundFloat64 x - x| ≤ x / 2 ^ 53 := by
  rcases hx.lt_or_eq with hpos | hzero
  · simp only [roundFloat64, hpos, if_true]
    exact roundFloat64Pos_error hpos
  · rw [← hzero]; simp [roundFloat64]

theorem roundFloat64Pos_eq {x : ℚ} {e M : ℤ} (h1 : (2 : ℚ) ^ e ≤ x) (h2 : x < (2 : ℚ) ^ (e + 1))
    (hM : roundHalfEven (x / 2 ^ (e - 52)) = M) : roundFloat64Pos x = M * 2 ^ (e - 52) := by
  unfold roundFloat64Pos
  rw [log_eq_of_bounds h1 h2, hM]


theorem floor_eq_of_bounds {m : ℚ} {f : ℤ} (h1 : (f : ℚ) ≤ m) (h2 : m < f + 1) : ⌊m⌋ = f :=
  Int.floor_eq_iff.mpr ⟨h1, h2⟩

theorem roundHalfEven_down {m : ℚ} {f : ℤ} (h1 : (f : ℚ) ≤ m) (h2 : m < f + 1 / 2) :
    roundHalfEven m = f := by
  have hf : ⌊m⌋ = f := floor_eq_of_bounds h1 (by linarith)
  unfold roundHalfEven
  rw [hf, if_pos (by linarith)]

theorem roundHalfEven_up {m : ℚ} {f : ℤ} (h1 : (f : ℚ) + 1 / 2 < m) (h2 : m < f + 1) :
    roundHalfEven m = f + 1 := by
  have hf : ⌊m⌋ = f := floor_eq_of_bounds (by linarith) h2
  unfold roundHalfEven
  rw [hf, if_neg (by linarith), if_pos (by linarith)]

theorem roundHalfEven_tie_odd {m : ℚ} {f : ℤ} (h : m = f + 1 / 2) (hodd : f % 2 = 1) :
    roundHalfEven m = f + 1 := by
  have hf : ⌊m⌋ = f := floor_eq_of_bounds (by linarith) (by linarith)
  unfold roundHalfEven
  rw [hf, if_neg (by linarith), if_neg (by linarith), if_neg (by omega)]

theorem roundHalfEven_tie_even {m : ℚ} {f : ℤ} (h : m = f + 1 / 2) (heven : f % 2 = 0) :
    roundHalfEven m = f := by
  have hf : ⌊m⌋ = f := floor_eq_of_bounds (by linarith) (by linarith)
  unfold roundHalfEven
  rw [hf, if_neg (by linarith), if_neg (by linarith), if_pos heven]

/-- Integers below `2^53` are binary64 numbers: the conversion is exact. -/
theorem roundFloat64_intCast (n : ℤ) (h0 : 0 ≤ n) (h1 : n < 2 ^ 53) :
    roundFloat64 (n : ℚ) = n := by
  rcases h0.lt_or_eq with hpos | hzero
  · have hx : (0 : ℚ) < n := by exact_mod_cast hpos
    obtain ⟨hl1, hl2⟩ := log_bounds hx
    have hlt : Int.log 2 (n : ℚ) < 53 := by
      rw [← Int.lt_zpow_iff_log_lt (b := 2) (by norm_num) hx]
      have : (n : ℚ) < ((2 ^ 53 : ℤ) : ℚ) := by exact_mod_cast h1
      refine lt_of_lt_of_eq this ?_
      norm_num
    obtain ⟨k, hk⟩ : ∃ k : ℕ, (52 : ℤ) - Int.log 2 (n : ℚ) = k :=
      ⟨(52 - Int.log 2 (n : ℚ)).toNat, by omega⟩
    have hs : (2 : ℚ) ^ (Int.log 2 (n : ℚ) - 52) = ((2 : ℚ) ^ k)⁻¹ := by
      have : Int.log 2 (n : ℚ) - 52 = -(k : ℤ) := by omega
      rw [this, zpow_neg, zpow_natCast]
    have hm : (n : ℚ) / 2 ^ (Int.log 2 (n : ℚ) - 52) = ((n * 2 ^ k : ℤ) : ℚ) := by
      rw [hs]; push_cast; field_simp
    simp only [roundFloat64, hx, if_true, roundFloat64Pos]
    rw [hm, roundHalfEven_intCast, hs]
    push_cast
    field_simp
  · rw [← hzero]; simp [roundFloat64]

/-- The product `100 * 360287970189643` lies halfway between two binary64 numbers and is
rounded to the even one. -/
theorem roundFloat64_product_example :
    roundFloat64 (100 * 360287970189643 : ℚ) = 36028797018964304 := by
  have hpos : (0 : ℚ) < 100 * 360287970189643 := by norm_num
  simp only [roundFloat64, hpos, if_true]
  rw [roundFloat64Pos_eq (e := 55) (M := 4503599627370538) (by norm_num) (by norm_num)]
  · norm_num
  · have : roundHalfEven ((100 * 360287970189643 : ℚ) / 2 ^ ((55 : ℤ) - 52)) =
        (4503599627370537 : ℤ) + 1 :=
      roundHalfEven_tie_odd (by norm_num) (by norm_num)
    rw [this]; norm_num

theorem roundFloat64_quotient_example :
    roundFloat64 (36028797018964304 / 360287970189643 : ℚ) = 100 + 1 / 2 ^ 46 := by
  have hpos : (0 : ℚ) < 36028797018964304 / 360287970189643 := by norm_num
  simp only [roundFloat64, hpos, if_true]
  rw [roundFloat64Pos_eq (e := 6) (M := 7036874417766401) (by norm_num) (by norm_num)]
  · norm_num
  · have : roundHalfEven ((36028797018964304 / 360287970189643 : ℚ) / 2 ^ ((6 : ℤ) - 52)) =
        (7036874417766400 : ℤ) + 1 :=
      roundHalfEven_up (by norm_num) (by norm_num)
    rw [this]; norm_num

/-- The largest value a quotient can round to when the numerator is at most
`100 * (1 + 2^-53)` times the denominator. -/
theorem roundFloat64_hundred_bound :
    roundFloat64 (100 * (1 + 1 / 2 ^ 53) : ℚ) = 100 + 1 / 2 ^ 46 := by
  have hpos : (0 : ℚ) < 100 * (1 + 1 / 2 ^ 53) := by norm_num
  simp only [roundFloat64, hpos, if_true]
  rw [roundFloat64Pos_eq (e := 6) (M := 7036874417766401) (by norm_num) (by norm_num)]
  · norm_num
  · have : roundHalfEven ((100 * (1 + 1 / 2 ^ 53) : ℚ) / 2 ^ ((6 : ℤ) - 52)) =
        (7036874417766400 : ℤ) + 1 :=
      roundHalfEven_up (by norm_num) (by norm_num)
    rw [this]; norm_num


theorem roundFloat64_two_sided {x : ℚ} (hx : 0 ≤ x) :
    x * (1 - 1 / 2 ^ 53) ≤ roundFloat64 x ∧ roundFloat64 x ≤ x * (1 + 1 / 2 ^ 53) := by
  have h := abs_le.mp (roundFloat64_error hx)
  constructor
  · have := h.1; linarith
  · have := h.2; linarith

theorem roundFloat64_one_le {k : ℤ} (hk : 1 ≤ k) : (1 : ℚ) ≤ roundFloat64 (k : ℚ) := by
  have h1 : roundFloat64 ((1 : ℤ) : ℚ) = ((1 : ℤ) : ℚ) :=
    roundFloat64_intCast 1 (by norm_num) (by norm_num)
  have hm : roundFloat64 ((1 : ℤ) : ℚ) ≤ roundFloat64 (k : ℚ) :=
    roundFloat64_mono (by norm_num) (by exact_mod_cast hk)
  rw [h1] at hm
  simpa using hm

theorem meanValue_nonneg {u k : ℤ} (hu : 0 ≤ u) (hk : 1 ≤ k) : 0 ≤ meanValue u k := by
  unfold meanValue
  apply roundFloat64_nonneg
  apply div_nonneg
  · apply roundFloat64_nonneg
    apply mul_nonneg (by norm_num)
    exact roundFloat64_nonneg (by exact_mod_cast hu)
  · exact le_trans (by norm_num) (roundFloat64_one_le hk)

theorem meanValue_le {u k : ℤ} (hu : 0 ≤ u) (huk : u ≤ k) (hk : 1 ≤ k) :
    meanValue u k ≤ 100 + 1 / 2 ^ 46 := by
  have hu' : (0 : ℚ) ≤ u := by exact_mod_cast hu
  have hK1 := roundFloat64_one_le hk
  have hKpos : (0 : ℚ) < roundFloat64 (k : ℚ) := lt_of_lt_of_le (by norm_num) hK1
  have hUK : roundFloat64 (u : ℚ) ≤ roundFloat64 (k : ℚ) :=
    roundFloat64_mono hu' (by exact_mod_cast huk)
  have hU0 : 0 ≤ roundFloat64 (u : ℚ) := roundFloat64_nonneg hu'
  have hP : roundFloat64 (100 * roundFloat64 (u : ℚ)) ≤
      100 * roundFloat64 (k : ℚ) * (1 + 1 / 2 ^ 53) := by
    calc roundFloat64 (100 * roundFloat64 (u : ℚ))
        ≤ roundFloat64 (100 * roundFloat64 (k : ℚ)) :=
          roundFloat64_mono (by positivity) (by linarith)
      _ ≤ 100 * roundFloat64 (k : ℚ) * (1 + 1 / 2 ^ 53) :=
          (roundFloat64_two_sided (by positivity)).2
  have hP0 : 0 ≤ roundFloat64 (100 * roundFloat64 (u : ℚ)) :=
    roundFloat64_nonneg (by positivity)
  have hq : roundFloat64 (100 * roundFloat64 (u : ℚ)) / roundFloat64 (k : ℚ) ≤
      100 * (1 + 1 / 2 ^ 53) := by
    rw [div_le_iff₀ hKpos]
    linarith
  unfold meanValue
  calc roundFloat64 (roundFloat64 (100 * roundFloat64 (u : ℚ)) / roundFloat64 (k : ℚ))
      ≤ roundFloat64 (100 * (1 + 1 / 2 ^ 53)) :=
        roundFloat64_mono (div_nonneg hP0 hKpos.le) hq
    _ = 100 + 1 / 2 ^ 46 := roundFloat64_hundred_bound

/-- The computed value is within a relative error of `2^-50` of the exact quotient. -/
theorem meanValue_error {u k : ℤ} (hu : 0 ≤ u) (hk : 1 ≤ k) :
    |meanValue u k - 100 * (u : ℚ) / (k : ℚ)| ≤ (100 * (u : ℚ) / (k : ℚ)) / 2 ^ 50 := by
  have hu' : (0 : ℚ) ≤ u := by exact_mod_cast hu
  have hk' : (0 : ℚ) < k := by exact_mod_cast (by omega : (0 : ℤ) < k)
  obtain ⟨hU1, hU2⟩ := roundFloat64_two_sided hu'
  obtain ⟨hK1, hK2⟩ := roundFloat64_two_sided hk'.le
  have hU0 : 0 ≤ roundFloat64 (u : ℚ) := roundFloat64_nonneg hu'
  have hKpos : (0 : ℚ) < roundFloat64 (k : ℚ) :=
    lt_of_lt_of_le (by norm_num) (roundFloat64_one_le hk)
  obtain ⟨hP1, hP2⟩ := roundFloat64_two_sided
    (show (0 : ℚ) ≤ 100 * roundFloat64 (u : ℚ) by positivity)
  have hP0 : 0 ≤ roundFloat64 (100 * roundFloat64 (u : ℚ)) :=
    roundFloat64_nonneg (by positivity)
  obtain ⟨hV1, hV2⟩ := roundFloat64_two_sided
    (show (0 : ℚ) ≤ roundFloat64 (100 * roundFloat64 (u : ℚ)) / roundFloat64 (k : ℚ) from
      div_nonneg hP0 hKpos.le)
  set U := roundFloat64 (u : ℚ) with hUdef
  set K := roundFloat64 (k : ℚ) with hKdef
  set P := roundFloat64 (100 * U) with hPdef
  have hv : meanValue u k = roundFloat64 (P / K) := rfl
  rw [hv]
  set V := roundFloat64 (P / K) with hVdef
  -- bounds on P / K
  have hPK_hi : P / K ≤ 100 * (u : ℚ) / k * ((1 + 1 / 2 ^ 53) ^ 2 / (1 - 1 / 2 ^ 53)) := by
    have hKlo : (k : ℚ) * (1 - 1 / 2 ^ 53) ≤ K := hK1
    have hden : (0 : ℚ) < (k : ℚ) * (1 - 1 / 2 ^ 53) := by
      apply mul_pos hk'; norm_num
    have hPhi : P ≤ 100 * (u : ℚ) * (1 + 1 / 2 ^ 53) ^ 2 := by
      calc P ≤ 100 * U * (1 + 1 / 2 ^ 53) := hP2
        _ ≤ 100 * ((u : ℚ) * (1 + 1 / 2 ^ 53)) * (1 + 1 / 2 ^ 53) := by
            apply mul_le_mul_of_nonneg_right _ (by norm_num)
            linarith
        _ = 100 * (u : ℚ) * (1 + 1 / 2 ^ 53) ^ 2 := by ring
    calc P / K ≤ (100 * (u : ℚ) * (1 + 1 / 2 ^ 53) ^ 2) / ((k : ℚ) * (1 - 1 / 2 ^ 53)) :=
          div_le_div₀ (by positivity) hPhi hden hKlo
      _ = 100 * (u : ℚ) / k * ((1 + 1 / 2 ^ 53) ^ 2 / (1 - 1 / 2 ^ 53)) := by
          field_simp
          ring
  have hPK_lo : 100 * (u : ℚ) / k * ((1 - 1 / 2 ^ 53) ^ 2 / (1 + 1 / 2 ^ 53)) ≤ P / K := by
    have hKhi : K ≤ (k : ℚ) * (1 + 1 / 2 ^ 53) := hK2
    have hPlo : 100 * (u : ℚ) * (1 - 1 / 2 ^ 53) ^ 2 ≤ P := by
      calc 100 * (u : ℚ) * (1 - 1 / 2 ^ 53) ^ 2
          = 100 * ((u : ℚ) * (1 - 1 / 2 ^ 53)) * (1 - 1 / 2 ^ 53) := by ring
        _ ≤ 100 * U * (1 - 1 / 2 ^ 53) := by
            apply mul_le_mul_of_nonneg_right _ (by norm_num)
            linarith
        _ ≤ P := hP1
    calc 100 * (u : ℚ) / k * ((1 - 1 / 2 ^ 53) ^ 2 / (1 + 1 / 2 ^ 53))
        = (100 * (u : ℚ) * (1 - 1 / 2 ^ 53) ^ 2) / ((k : ℚ) * (1 + 1 / 2 ^ 53)) := by
          field_simp
          ring
      _ ≤ P / K :=
          div_le_div₀ hP0 hPlo hKpos hKhi
  have hq0 : (0 : ℚ) ≤ 100 * (u : ℚ) / k := by positivity
  have hPK0 : 0 ≤ P / K := div_nonneg hP0 hKpos.le
  have c1 : ((1 : ℚ) + 1 / 2 ^ 53) ^ 2 / (1 - 1 / 2 ^ 53) * (1 + 1 / 2 ^ 53) ≤ 1 + 1 / 2 ^ 50 := by
    norm_num
  have c2 : (1 : ℚ) - 1 / 2 ^ 50 ≤ (1 - 1 / 2 ^ 53) ^ 2 / (1 + 1 / 2 ^ 53) * (1 - 1 / 2 ^ 53) := by
    norm_num
  rw [abs_le]
  constructor
  · -- lower
    have : 100 * (u : ℚ) / k * (1 - 1 / 2 ^ 50) ≤ V := by
      calc 100 * (u : ℚ) / k * (1 - 1 / 2 ^ 50)
          ≤ 100 * (u : ℚ) / k *
              ((1 - 1 / 2 ^ 53) ^ 2 / (1 + 1 / 2 ^ 53) * (1 - 1 / 2 ^ 53)) :=
            mul_le_mul_of_nonneg_left c2 hq0
        _ = 100 * (u : ℚ) / k * ((1 - 1 / 2 ^ 53) ^ 2 / (1 + 1 / 2 ^ 53)) *
              (1 - 1 / 2 ^ 53) := by ring
        _ ≤ P / K * (1 - 1 / 2 ^ 53) :=
            mul_le_mul_of_nonneg_right hPK_lo (by norm_num)
        _ ≤ V := hV1
    linarith
  · have : V ≤ 100 * (u : ℚ) / k * (1 + 1 / 2 ^ 50) := by
      calc V ≤ P / K * (1 + 1 / 2 ^ 53) := hV2
        _ ≤ 100 * (u : ℚ) / k * ((1 + 1 / 2 ^ 53) ^ 2 / (1 - 1 / 2 ^ 53)) *
              (1 + 1 / 2 ^ 53) :=
            mul_le_mul_of_nonneg_right hPK_hi (by norm_num)
        _ = 100 * (u : ℚ) / k *
              ((1 + 1 / 2 ^ 53) ^ 2 / (1 - 1 / 2 ^ 53) * (1 + 1 / 2 ^ 53)) := by ring
        _ ≤ 100 * (u : ℚ) / k * (1 + 1 / 2 ^ 50) :=
            mul_le_mul_of_nonneg_left c1 hq0
    linarith

/-! ### The mean occupancy call -/

/-- `GetMeanWorkerPoolOccupancyByComponent` reads only the rows of the component. -/
theorem GetMean_filter (t : Table) (c : String) :
    GetMeanWorkerPoolOccupancyByComponent (selectWhereComponentGetMany t c) c =
      GetMeanWorkerPoolOccupancyByComponent t c := by
  simp [GetMeanWorkerPoolOccupancyByComponent, selectWhereComponentGetMany, List.filter_filter]

/-- The result of `GetMeanWorkerPoolOccupancyByComponent` from the two accumulators. -/
theorem GetMean_of_aggregate (t : Table) (c : String) (u k : Int)
    (hne : selectWhereComponentGetMany t c ≠ [])
    (hagg : aggregate (selectWhereComponentGetMany t c) = (u, k)) :
    GetMeanWorkerPoolOccupancyByComponent t c = .ok (aggregatedOccupancy u k) := by
  have hlen : ¬ (selectWhereComponentGetMany t c).length = 0 := by
    rw [List.length_eq_zero]; exact hne
  simp only [GetMeanWorkerPoolOccupancyByComponent, hagg, beq_iff_eq, hlen, if_false]

/-- With a positive capacity sum the expression is a finite value. -/
theorem aggregatedOccupancy_finite (u k : Int) (hk : 1 ≤ k) :
    aggregatedOccupancy u k = .finite (meanValue u k) := by
  have h := roundFloat64_one_le hk
  have hne : ¬ roundFloat64 (k : ℚ) = 0 := by
    intro h0
    rw [h0] at h
    norm_num at h
  unfold aggregatedOccupancy
  rw [if_neg hne]

/-- A positive rational whose significand is an integer is a binary64 number. -/
theorem roundFloat64Pos_exact {x : ℚ} {e M : ℤ} (h1 : (2 : ℚ) ^ e ≤ x)
    (h2 : x < (2 : ℚ) ^ (e + 1)) (hM : x / 2 ^ (e - 52) = (M : ℚ)) : roundFloat64Pos x = x := by
  rw [roundFloat64Pos_eq h1 h2 (M := M) (by rw [hM, roundHalfEven_intCast]), ← hM]
  have hs := two_zpow_pos (e - 52)
  field_simp

/-- The computed mean of `1` running worker on a capacity of `3` is the binary64 number
`33.333333333333336`, not `100 / 3`. -/
theorem meanValue_one_three : meanValue 1 3 = 4691249611844267 / 140737488355328 := by
  have h1 : roundFloat64 ((1 : ℤ) : ℚ) = ((1 : ℤ) : ℚ) :=
    roundFloat64_intCast 1 (by norm_num) (by norm_num)
  have h3 : roundFloat64 ((3 : ℤ) : ℚ) = ((3 : ℤ) : ℚ) :=
    roundFloat64_intCast 3 (by norm_num) (by norm_num)
  have h100 : roundFloat64 (100 * ((1 : ℤ) : ℚ)) = 100 := by
    have := roundFloat64_intCast 100 (by norm_num) (by norm_num)
    simpa using this
  unfold meanValue
  rw [h1, h3, h100]
  have hpos : (0 : ℚ) < 100 / ((3 : ℤ) : ℚ) := by norm_num
  simp only [roundFloat64, hpos, if_true]
  rw [roundFloat64Pos_eq (e := 5) (M := 4691249611844267) (by norm_num) (by norm_num)]
  · norm_num
  · have : roundHalfEven ((100 / ((3 : ℤ) : ℚ)) / 2 ^ ((5 : ℤ) - 52)) =
        (4691249611844266 : ℤ) + 1 :=
      roundHalfEven_up (by norm_num) (by norm_num)
    rw [this]; norm_num

/-- The computed mean of a pool with `360287970189643` running workers on the same capacity
is the binary64 number next above `100`. -/
theorem meanValue_full_pool :
    meanValue 360287970189643 360287970189643 = 100 + 1 / 2 ^ 46 := by
  have hx : roundFloat64 ((360287970189643 : ℤ) : ℚ) = ((360287970189643 : ℤ) : ℚ) :=
    roundFloat64_intCast 360287970189643 (by norm_num) (by norm_num)
  unfold meanValue
  rw [hx]
  have hp : (100 * ((360287970189643 : ℤ) : ℚ)) = (100 * 360287970189643 : ℚ) := by norm_num
  rw [hp, roundFloat64_product_example]
  have hq : (36028797018964304 : ℚ) / ((360287970189643 : ℤ) : ℚ) =
      (36028797018964304 / 360287970189643 : ℚ) := by norm_num
  rw [hq, roundFloat64_quotient_example]

/-- The computed mean after the capacity accumulator has wrapped to `-2^63`. -/
theorem aggregatedOccupancy_wrapped :
    aggregatedOccupancy 2 (-2 ^ 63) = .finite (-(25 / 2 ^ 60)) := by
  have h2 : roundFloat64 ((2 : ℤ) : ℚ) = ((2 : ℤ) : ℚ) :=
    roundFloat64_intCast 2 (by norm_num) (by norm_num)
  have h200 : roundFloat64 (100 * ((2 : ℤ) : ℚ)) = 200 := by
    have := roundFloat64_intCast 200 (by norm_num) (by norm_num)
    have e : (100 : ℚ) * ((2 : ℤ) : ℚ) = ((200 : ℤ) : ℚ) := by norm_num
    rw [e, this]; norm_num
  have hk : roundFloat64 (((-2 ^ 63 : ℤ)) : ℚ) = -(2 ^ 63) := by
    have hneg : ((-2 ^ 63 : ℤ) : ℚ) < 0 := by norm_num
    have hnpos : ¬ (0 : ℚ) < ((-2 ^ 63 : ℤ) : ℚ) := not_lt.mpr hneg.le
    simp only [roundFloat64, hnpos, hneg, if_true, if_false]
    have : -((-2 ^ 63 : ℤ) : ℚ) = 2 ^ 63 := by norm_num
    rw [this, roundFloat64Pos_exact (e := 63) (M := 2 ^ 52) (by norm_num) (by norm_num)
      (by norm_num)]
  have hq : roundFloat64 ((200 : ℚ) / -(2 ^ 63)) = -(25 / 2 ^ 60) := by
    have hneg : ((200 : ℚ) / -(2 ^ 63)) < 0 := by norm_num
    have hnpos : ¬ (0 : ℚ) < ((200 : ℚ) / -(2 ^ 63)) := not_lt.mpr hneg.le
    simp only [roundFloat64, hnpos, hneg, if_true, if_false]
    have : -((200 : ℚ) / -(2 ^ 63)) = 25 / 2 ^ 60 := by norm_num
    rw [this, roundFloat64Pos_exact (e := -56) (M := 25 * 2 ^ 48) (by norm_num) (by norm_num)
      (by norm_num)]
  have hne : ¬ roundFloat64 (((-2 ^ 63 : ℤ)) : ℚ) = 0 := by rw [hk]; norm_num
  unfold aggregatedOccupancy meanValue
  rw [if_neg hne, h2, h200, hk, hq]

/-- C5 (counterexample): a pool of component `"c"` created with capacity `360287970189643`
and updated to as many running workers satisfies the occupancy invariant and its capacity is
far below `2^63`; the exact quotient is `100`, the call returns `100 + 2^-46`
(`100.00000000000001`), which is neither the exact quotient nor at most `100`.  Two rows of
capacity `2^62` with one running worker each satisfy the invariant as well; the capacity
accumulator wraps to `-2^63` and the call returns a negative value. -/
theorem C5_counterexample :
    runCalls [.create 0 "p" "c" 360287970189643, .update "p" 360287970189643] =
        [⟨"p", "c", 360287970189643, 360287970189643, 0⟩] ∧
      OccupancyInvariant [⟨"p", "c", 360287970189643, 360287970189643, 0⟩] ∧
      (100 * (360287970189643 : ℚ) / 360287970189643 = 100) ∧
      GetMeanWorkerPoolOccupancyByComponent
          [⟨"p", "c", 360287970189643, 360287970189643, 0⟩] "c" =
        .ok (.finite (100 + 1 / 2 ^ 46)) ∧
      (100 : ℚ) < 100 + 1 / 2 ^ 46 ∧
      OccupancyInvariant [⟨"a", "c", 1, 2 ^ 62, 0⟩, ⟨"b", "c", 1, 2 ^ 62, 0⟩] ∧
      GetMeanWorkerPoolOccupancyByComponent
          [⟨"a", "c", 1, 2 ^ 62, 0⟩, ⟨"b", "c", 1, 2 ^ 62, 0⟩] "c" =
        .ok (.finite (-(25 / 2 ^ 60))) ∧
      (-(25 / 2 ^ 60) : ℚ) < 0 := by
  refine ⟨by decide, by decide, by norm_num, ?_, by norm_num, by decide, ?_, by norm_num⟩
  · rw [GetMean_of_aggregate _ "c" 360287970189643 360287970189643 (by decide) (by decide),
      aggregatedOccupancy_finite _ _ (by norm_num), meanValue_full_pool]
  · rw [GetMean_of_aggregate _ "c" 2 (-2 ^ 63) (by decide) (by decide),
      aggregatedOccupancy_wrapped]

/-- C5 (amended): on a table whose rows satisfy the occupancy invariant and whose capacities
of the rows of component `c` sum to less than `2^63`: with at least one row of the component
the call returns the finite `float64` value of `100 * float64(Σ runningWorkers) /
float64(Σ capacity)` over the rows of the component, each operation rounded; that value lies
in `[0, 100 + 2^-46]` and differs from the exact quotient `100 * Σ runningWorkers /
Σ capacity` by at most `2^-50` times the quotient; with no such row the call fails with the
not-found error; rows of other components do not change the result. -/
theorem C5_mean_occupancy (t : Table) (c : String) (hinv : OccupancyInvariant t)
    (hfit : sumCapacity (t.filter (fun r => r.Component == c)) < 2 ^ 63) :
    ((∃ r ∈ t, r.Component = c) →
      GetMeanWorkerPoolOccupancyByComponent t c =
        .ok (.finite (meanValue (sumRunningWorkers (t.filter (fun r => r.Component == c)))
          (sumCapacity (t.filter (fun r => r.Component == c))))) ∧
      0 ≤ meanValue (sumRunningWorkers (t.filter (fun r => r.Component == c)))
          (sumCapacity (t.filter (fun r => r.Component == c))) ∧
      meanValue (sumRunningWorkers (t.filter (fun r => r.Component == c)))
          (sumCapacity (t.filter (fun r => r.Component == c))) ≤ 100 + 1 / 2 ^ 46 ∧
      |meanValue (sumRunningWorkers (t.filter (fun r => r.Component == c)))
          (sumCapacity (t.filter (fun r => r.Component == c))) -
        100 * (sumRunningWorkers (t.filter (fun r => r.Component == c)) : ℚ) /
          (sumCapacity (t.filter (fun r => r.Component == c)) : ℚ)| ≤
        (100 * (sumRunningWorkers (t.filter (fun r => r.Component == c)) : ℚ) /
          (sumCapacity (t.filter (fun r => r.Component == c)) : ℚ)) / 2 ^ 50) ∧
    ((¬ ∃ r ∈ t, r.Component = c) →
      GetMeanWorkerPoolOccupancyByComponent t c = .error (.noRecordForComponent c)) ∧
    (∀ t' : Table, t'.filter (fun r => r.Component == c) = t.filter (fun r => r.Component == c) →
      GetMeanWorkerPoolOccupancyByComponent t' c = GetMeanWorkerPoolOccupancyByComponent t c) := by
  have hrows : ∀ r ∈ t.filter (fun r => r.Component == c),
      0 ≤ r.RunningWorkers ∧ r.RunningWorkers ≤ r.WorkerPoolCapacity ∧
        1 ≤ r.WorkerPoolCapacity := fun r hr => hinv r (List.mem_of_mem_filter hr)
  refine ⟨?_, ?_, ?_⟩
  · intro hex
    obtain ⟨r, hr, hrc⟩ := hex
    have hmem : r ∈ t.filter (fun r => r.Component == c) := by
      simp [List.mem_filter, hr, hrc]
    have hne : t.filter (fun r => r.Component == c) ≠ [] := List.ne_nil_of_mem hmem
    have hlen : 0 < (t.filter (fun r => r.Component == c)).length :=
      List.length_pos_of_mem hmem
    have hb := sums_bounds _ hrows
    have hagg := foldl_aggregate (t.filter (fun r => r.Component == c)) 0 0 (le_refl _)
      (le_refl _) (fun x hx => ⟨(hrows x hx).1, (hrows x hx).2.1⟩) (by omega)
    simp only [zero_add] at hagg
    have hk : 1 ≤ sumCapacity (t.filter (fun r => r.Component == c)) := by omega
    refine ⟨?_, meanValue_nonneg hb.1 hk, meanValue_le hb.1 hb.2.1 hk, meanValue_error hb.1 hk⟩
    rw [GetMean_of_aggregate t c _ _ hne hagg, aggregatedOccupancy_finite _ _ hk]
  · intro hex
    have hnil : t.filter (fun r => r.Component == c) = [] := by
      rw [List.filter_eq_nil_iff]
      intro r hr hrc
      exact hex ⟨r, hr, by simpa using hrc⟩
    simp [GetMeanWorkerPoolOccupancyByComponent, selectWhereComponentGetMany, hnil]
  · intro t' ht'
    rw [← GetMean_filter t' c, ← GetMean_filter t c]
    simp only [selectWhereComponentGetMany, ht']

/-- C5 (amended) at two pools of component `"c"` with capacities `4` and `6` and `2` and `3`
running workers, next to a pool of another component: the mean occupancy is `50`. -/
theorem C5_mean_occupancy_witness :
    GetMeanWorkerPoolOccupancyByComponent
        [⟨"a", "c", 2, 4, 0⟩, ⟨"b", "c", 3, 6, 0⟩, ⟨"x", "d", 1, 1, 0⟩] "c" =
      .ok (.finite 50) := by
  have h := ((C5_mean_occupancy [⟨"a", "c", 2, 4, 0⟩, ⟨"b", "c", 3, 6, 0⟩, ⟨"x", "d", 1, 1, 0⟩] "c"
    (by decide) (by decide)).1 ⟨⟨"a", "c", 2, 4, 0⟩, by decide, rfl⟩).1
  rw [h]
  have hr : sumRunningWorkers
      ([⟨"a", "c", 2, 4, 0⟩, ⟨"b", "c", 3, 6, 0⟩, ⟨"x", "d", 1, 1, 0⟩].filter
        (fun r => r.Component == "c")) = 5 := by decide
  have hc : sumCapacity
      ([⟨"a", "c", 2, 4, 0⟩, ⟨"b", "c", 3, 6, 0⟩, ⟨"x", "d", 1, 1, 0⟩].filter
        (fun r => r.Component == "c")) = 10 := by decide
  rw [hr, hc]
  have h5 : roundFloat64 ((5 : ℤ) : ℚ) = ((5 : ℤ) : ℚ) :=
    roundFloat64_intCast 5 (by norm_num) (by norm_num)
  have h10 : roundFloat64 ((10 : ℤ) : ℚ) = ((10 : ℤ) : ℚ) :=
    roundFloat64_intCast 10 (by norm_num) (by norm_num)
  have h500 : roundFloat64 (100 * ((5 : ℤ) : ℚ)) = 500 := by
    have := roundFloat64_intCast 500 (by norm_num) (by norm_num)
    have e : (100 : ℚ) * ((5 : ℤ) : ℚ) = ((500 : ℤ) : ℚ) := by norm_num
    rw [e, this]; norm_num
  have h50 : roundFloat64 ((500 : ℚ) / ((10 : ℤ) : ℚ)) = 50 := by
    have := roundFloat64_intCast 50 (by norm_num) (by norm_num)
    have e : (500 : ℚ) / ((10 : ℤ) : ℚ) = ((50 : ℤ) : ℚ) := by norm_num
    rw [e, this]; norm_num
  unfold meanValue
  rw [h5, h10, h500, h50]

/-! ### Reconciliation result -/

theorem perm_all_eq {α : Type} {l₁ l₂ : List α} (h : l₁.Perm l₂) (f : α → Bool) :
    l₁.all f = l₂.all f := by
  rw [Bool.eq_iff_iff, List.all_eq_true, List.all_eq_true]
  exact ⟨fun H x hx => H x (h.mem_iff.mpr hx), fun H x hx => H x (h.mem_iff.mp hx)⟩

theorem perm_any_eq {α : Type} {l₁ l₂ : List α} (h : l₁.Perm l₂) (f : α → Bool) :
    l₁.any f = l₂.any f := by
  rw [Bool.eq_iff_iff, List.any_eq_true, List.any_eq_true]
  exact ⟨fun ⟨x, hx, hf⟩ => ⟨x, h.mem_iff.mp hx, hf⟩, fun ⟨x, hx, hf⟩ => ⟨x, h.mem_iff.mpr hx, hf⟩⟩

theorem all_map_fun {α β : Type} (l : List α) (g : α → β) (f : β → Bool) :
    (l.map g).all f = l.all (fun x => f (g x)) := by
  induction l with
  | nil => rfl
  | cons a l ih => simp [List.all_cons, ih]

theorem any_map_fun {α β : Type} (l : List α) (g : α → β) (f : β → Bool) :
    (l.map g).any f = l.any (fun x => f (g x)) := by
  induction l with
  | nil => rfl
  | cons a l ih => simp [List.any_cons, ih]

/-- The status depends on the operations only through the multiset of their
(state, type) pairs. -/
theorem evaluateStatus_congr (ops₁ ops₂ : List OperationEntity)
    (h : (ops₁.map (fun op => (op.State, op.Type_))).Perm
      (ops₂.map (fun op => (op.State, op.Type_)))) :
    evaluateStatus ops₁ = evaluateStatus ops₂ := by
  have hall : ∀ f : OperationState × OperationType → Bool,
      ops₁.all (fun op => f (op.State, op.Type_)) =
        ops₂.all (fun op => f (op.State, op.Type_)) := by
    intro f
    have := perm_all_eq h f
    rwa [all_map_fun, all_map_fun] at this
  have hany : ∀ f : OperationState × OperationType → Bool,
      ops₁.any (fun op => f (op.State, op.Type_)) =
        ops₂.any (fun op => f (op.State, op.Type_)) := by
    intro f
    have := perm_any_eq h f
    rwa [any_map_fun, any_map_fun] at this
  have hemp : ops₁.isEmpty = ops₂.isEmpty := by
    have hl := h.length_eq
    rw [List.length_map, List.length_map] at hl
    cases ops₁ <;> cases ops₂ <;> simp_all
  have h1 : ops₁.all (fun op => op.Type_ == OperationTypeDelete) =
      ops₂.all (fun op => op.Type_ == OperationTypeDelete) :=
    hall (fun k => k.2 == OperationTypeDelete)
  have h2 : ops₁.all (fun op => classify op.State == .terminalOK) =
      ops₂.all (fun op => classify op.State == .terminalOK) :=
    hall (fun k => classify k.1 == .terminalOK)
  have h3 : ∀ c, anyClass ops₁ c = anyClass ops₂ c :=
    fun c => hany (fun k => classify k.1 == c)
  simp only [evaluateStatus, isDeleteMode, hemp, h1, h2, h3]

/-- `AddOperations` in closed form. -/
theorem AddOperations_eq (rs : ReconciliationResult) (ops : List OperationEntity) :
    AddOperations rs ops =
      if ops.all structurallyValid then
        .ok { rs with
          operations := rs.operations ++ ops.filter (fun op => op.SchedulingID == rs.schedulingID)
          status := evaluateStatus
            (rs.operations ++ ops.filter (fun op => op.SchedulingID == rs.schedulingID)) }
      else .error .missingCorrelationID := rfl

theorem filter_schedulingID_eq_self (ops : List OperationEntity) (s : String)
    (h : ∀ op ∈ ops, op.SchedulingID = s) :
    ops.filter (fun op => op.SchedulingID == s) = ops := by
  rw [List.filter_eq_self]
  intro op hop
  simp [h op hop]

/-- After `AddOperations` on a fresh result with operations of its schedulingID, the cached
status is the status of the submitted operations. -/
theorem GetResult_fresh (recon : ReconciliationEntity) (ops : List OperationEntity)
    (hsid : ∀ op ∈ ops, op.SchedulingID = recon.SchedulingID) (rs' : ReconciliationResult)
    (h : AddOperations (newReconciliationResult recon) ops = .ok rs') :
    GetResult rs' = evaluateStatus ops ∧ GetOperations rs' = ops := by
  rw [AddOperations_eq] at h
  by_cases hv : ops.all structurallyValid = true
  · rw [if_pos hv] at h
    injection h with h
    subst h
    simp [GetResult, GetOperations, newReconciliationResult,
      filter_schedulingID_eq_self ops recon.SchedulingID hsid]
  · rw [if_neg hv] at h
    cases h

/-- The decision rules in the three-way form: success when all are done, else error when
some operation is `error` or `failed` and none is `inprogress`, else in-flight. -/
theorem evaluateStatus_three_way (ops : List OperationEntity) (hne : ops ≠ []) :
    evaluateStatus ops =
      if ∀ op ∈ ops, op.State = OperationStateDone then
        successStatus (decide (∀ op ∈ ops, op.Type_ = OperationTypeDelete))
      else if (∃ op ∈ ops, op.State = OperationStateError ∨ op.State = OperationStateFailed) ∧
          ¬ ∃ op ∈ ops, op.State = OperationStateInProgress then
        errorStatus (decide (∀ op ∈ ops, op.Type_ = OperationTypeDelete))
      else inFlightStatus (decide (∀ op ∈ ops, op.Type_ = OperationTypeDelete)) := by
  have hmode : isDeleteMode ops = decide (∀ op ∈ ops, op.Type_ = OperationTypeDelete) := by
    cases ops with
    | nil => exact absurd rfl hne
    | cons a l =>
      simp only [isDeleteMode, List.isEmpty_cons, Bool.not_false, Bool.true_and]
      rw [Bool.eq_iff_iff]
      simp [List.all_eq_true]
  have hdone : (ops.all (fun op => classify op.State == .terminalOK) = true) ↔
      ∀ op ∈ ops, op.State = OperationStateDone := by
    rw [List.all_eq_true]
    constructor
    · intro H op hop
      have := H op hop
      cases hs : op.State <;> simp [classify, hs] at this ⊢
    · intro H op hop
      simp [classify, H op hop]
  have hbad : (anyClass ops .terminalBad = true) ↔
      ∃ op ∈ ops, op.State = OperationStateError ∨ op.State = OperationStateFailed := by
    unfold anyClass
    rw [List.any_eq_true]
    constructor
    · rintro ⟨op, hop, H⟩
      refine ⟨op, hop, ?_⟩
      cases hs : op.State <;> simp [classify, hs] at H ⊢
    · rintro ⟨op, hop, H | H⟩ <;> exact ⟨op, hop, by simp [classify, H]⟩
  have hrun : (anyClass ops .running = true) ↔
      ∃ op ∈ ops, op.State = OperationStateInProgress := by
    unfold anyClass
    rw [List.any_eq_true]
    constructor
    · rintro ⟨op, hop, H⟩
      refine ⟨op, hop, ?_⟩
      cases hs : op.State <;> simp [classify, hs] at H ⊢
    · rintro ⟨op, hop, H⟩
      exact ⟨op, hop, by simp [classify, H]⟩
  unfold evaluateStatus
  simp only [hmode]
  by_cases h1 : ∀ op ∈ ops, op.State = OperationStateDone
  · rw [if_pos (hdone.mpr h1), if_pos h1]
  · rw [if_neg (fun h => h1 (hdone.mp h)), if_neg h1]
    by_cases h2 : ∃ op ∈ ops, op.State = OperationStateError ∨ op.State = OperationStateFailed
    · have hb := hbad.mpr h2
      by_cases h3 : ∃ op ∈ ops, op.State = OperationStateInProgress
      · have hr := hrun.mpr h3
        simp [hb, hr, h2, h3]
      · have hr : anyClass ops .running = false := by
          rw [Bool.eq_false_iff]
          exact fun h => h3 (hrun.mp h)
        rw [if_pos (And.intro h2 h3)]
        cases hp : anyClass ops .pending <;> simp [hb, hr]
    · have hb : anyClass ops .terminalBad = false := by
        rw [Bool.eq_false_iff]
        exact fun h => h2 (hbad.mp h)
      simp [hb, h2]

theorem orphan_assertion_mono (rs : ReconciliationResult) (now : Int) (h : 0 ≤ now)
    (correlationID : String)
    (h0 : (GetOrphans rs 0 1000).any (fun op => op.CorrelationID == correlationID) = true) :
    (GetOrphans rs now 1000).any (fun op => op.CorrelationID == correlationID) = true := by
  rw [List.any_eq_true] at h0 ⊢
  obtain ⟨op, hop, hc⟩ := h0
  refine ⟨op, ?_, hc⟩
  simp only [GetOrphans, List.mem_filter, Bool.and_eq_true, decide_eq_true_eq] at hop ⊢
  exact ⟨hop.1, hop.2.1, by omega⟩

theorem reconcileAssertions_mono (now : Int) (h : 0 ≤ now) (tc : testCase)
    (h0 : reconcileAssertions GetOrphans 0 tc = true) :
    reconcileAssertions GetOrphans now tc = true := by
  unfold reconcileAssertions at h0 ⊢
  cases hadd : AddOperations (newReconciliationResult testRecon) tc.operations with
  | error e => rw [hadd] at h0; exact absurd h0 (by simp)
  | ok rs =>
    rw [hadd] at h0
    simp only [Bool.and_eq_true, List.all_eq_true] at h0 ⊢
    exact ⟨h0.1, fun c hc => orphan_assertion_mono rs now h c (h0.2 c hc)⟩

theorem TestReconciliationResult_passes_at (now : Int) (h : 0 ≤ now) :
    testCases.all (reconcileAssertions GetOrphans now) = true := by
  have h0 : testCases.all (reconcileAssertions GetOrphans 0) = true := by decide
  rw [List.all_eq_true] at h0 ⊢
  exact fun tc htc => reconcileAssertions_mono now h tc (h0 tc htc)

/-- The model passes every assertion of both loops of `TestReconciliationResult`. -/
theorem TestReconciliationResult_passes :
    testCases.all (reconcileAssertions GetOrphans 0) = true ∧
      testCases.all deleteAssertions = true := by
  decide

/-- With the orphan rule restricted to `inprogress`, the fourth test case fails: the test
expects the `failed` operation `1.1` among the orphans. -/
theorem GetOrphansSpec_fails_fourth_case :
    testCases.map (reconcileAssertions GetOrphansSpec 0) =
      [true, true, true, false, true, true, true, true, true, true] := by
  decide

/-- At every instant the rule restricted to `inprogress` fails the fourth test case. -/
theorem GetOrphansSpec_fails_fourth_case_at (now : Int) :
    (testCases.map (reconcileAssertions GetOrphansSpec now)).get? 3 = some false := by
  simp [testCases, reconcileAssertions, AddOperations, newReconciliationResult, testRecon,
    testOp, structurallyValid, GetOrphansSpec, GetResult, GetOperations]

/-- C1: after `AddOperations` of a non-empty list of operations that all carry the
schedulingID of a fresh result, `GetResult` is, in delete mode when every operation is a
delete operation and in reconcile mode otherwise: the success status when every operation
is done; otherwise the error status when some operation is `error` or `failed` and none is
`inprogress`; otherwise the in-flight status.  The call succeeds on structurally valid
operations, and two such lists with the same multiset of (state, type) pairs give the same
result. -/
theorem C1_decision_matrix (recon : ReconciliationEntity) (ops : List OperationEntity)
    (hne : ops ≠ []) (hsid : ∀ op ∈ ops, op.SchedulingID = recon.SchedulingID) :
    (∀ rs', AddOperations (newReconciliationResult recon) ops = .ok rs' →
      GetResult rs' =
        if ∀ op ∈ ops, op.State = OperationStateDone then
          (if ∀ op ∈ ops, op.Type_ = OperationTypeDelete then ClusterStatusDeleted
            else ClusterStatusReady)
        else if (∃ op ∈ ops, op.State = OperationStateError ∨ op.State = OperationStateFailed) ∧
            ¬ ∃ op ∈ ops, op.State = OperationStateInProgress then
          (if ∀ op ∈ ops, op.Type_ = OperationTypeDelete then ClusterStatusDeleteError
            else ClusterStatusReconcileError)
        else
          (if ∀ op ∈ ops, op.Type_ = OperationTypeDelete then ClusterStatusDeleting
            else ClusterStatusReconciling)) ∧
    ((∀ op ∈ ops, op.CorrelationID ≠ "") →
      ∃ rs', AddOperations (newReconciliationResult recon) ops = .ok rs') ∧
    (∀ ops₂ rs₁ rs₂, (∀ op ∈ ops₂, op.SchedulingID = recon.SchedulingID) →
      (ops.map (fun op => (op.State, op.Type_))).Perm
        (ops₂.map (fun op => (op.State, op.Type_))) →
      AddOperations (newReconciliationResult recon) ops = .ok rs₁ →
      AddOperations (newReconciliationResult recon) ops₂ = .ok rs₂ →
      GetResult rs₁ = GetResult rs₂) := by
  refine ⟨?_, ?_, ?_⟩
  · intro rs' h
    rw [(GetResult_fresh recon ops hsid rs' h).1, evaluateStatus_three_way ops hne]
    simp only [successStatus, errorStatus, inFlightStatus, decide_eq_true_eq]
  · intro hv
    have hall : ops.all structurallyValid = true := by
      rw [List.all_eq_true]
      intro op hop
      simp [structurallyValid, hv op hop]
    rw [AddOperations_eq, if_pos hall]
    exact ⟨_, rfl⟩
  · intro ops₂ rs₁ rs₂ hsid₂ hperm h₁ h₂
    rw [(GetResult_fresh recon ops hsid rs₁ h₁).1, (GetResult_fresh recon ops₂ hsid₂ rs₂ h₂).1]
    exact evaluateStatus_congr ops ops₂ hperm

/-- C1 at the third case of `TestReconciliationResult` (new, error, orphan, done): the
result is the reconcile error status. -/
theorem C1_decision_matrix_witness :
    AddOperations (newReconciliationResult testRecon)
        [testOp "1.1" OperationStateNew 0, testOp "1.2" OperationStateError 0,
         testOp "1.3" OperationStateOrphan 0, testOp "1.4" OperationStateDone 0] =
      .ok { runtimeID := "runtimeID"
            schedulingID := "schedulingID"
            operations :=
              [testOp "1.1" OperationStateNew 0, testOp "1.2" OperationStateError 0,
               testOp "1.3" OperationStateOrphan 0, testOp "1.4" OperationStateDone 0]
            status := ClusterStatusReconcileError } ∧
      GetResult { runtimeID := "runtimeID"
                  schedulingID := "schedulingID"
                  operations :=
                    [testOp "1.1" OperationStateNew 0, testOp "1.2" OperationStateError 0,
                     testOp "1.3" OperationStateOrphan 0, testOp "1.4" OperationStateDone 0]
                  status := ClusterStatusReconcileError } = ClusterStatusReconcileError := by
  have h := C1_decision_matrix testRecon
    [testOp "1.1" OperationStateNew 0, testOp "1.2" OperationStateError 0,
     testOp "1.3" OperationStateOrphan 0, testOp "1.4" OperationStateDone 0]
    (by decide) (by decide)
  refine ⟨by decide, ?_⟩
  rw [h.1 _ (by decide)]
  decide

/-- C8: on structurally valid operations `AddOperations` succeeds; the held operations
afterwards are the ones held before followed by the submitted operations with the
schedulingID of the result, every other submitted operation is dropped; on a result that
holds nothing and with operations that all carry its schedulingID, the held operations are
a permutation of the submitted ones. -/
theorem C8_add_operations (rs : ReconciliationResult) (ops : List OperationEntity)
    (hvalid : ∀ op ∈ ops, op.CorrelationID ≠ "") :
    ∃ rs', AddOperations rs ops = .ok rs' ∧
      rs'.schedulingID = rs.schedulingID ∧
      GetOperations rs' =
        GetOperations rs ++ ops.filter (fun op => op.SchedulingID == rs.schedulingID) ∧
      (∀ op, op.SchedulingID ≠ rs.schedulingID →
        List.count op (GetOperations rs') = List.count op (GetOperations rs)) ∧
      (∀ op, op.SchedulingID = rs.schedulingID →
        List.count op (GetOperations rs') =
          List.count op (GetOperations rs) + List.count op ops) ∧
      (GetOperations rs = [] → (∀ op ∈ ops, op.SchedulingID = rs.schedulingID) →
        (GetOperations rs').Perm ops) := by
  have hall : ops.all structurallyValid = true := by
    rw [List.all_eq_true]
    intro op hop
    simp [structurallyValid, hvalid op hop]
  refine ⟨{ rs with
      operations := rs.operations ++ ops.filter (fun op => op.SchedulingID == rs.schedulingID)
      status := evaluateStatus
        (rs.operations ++ ops.filter (fun op => op.SchedulingID == rs.schedulingID)) },
    by rw [AddOperations_eq, if_pos hall], rfl, rfl, ?_, ?_, ?_⟩
  · intro op hop
    simp only [GetOperations, List.count_append, add_right_eq_self, List.count_eq_zero,
      List.mem_filter, not_and]
    intro _ h
    exact hop (by simpa using h)
  · intro op hop
    simp only [GetOperations, List.count_append]
    rw [List.count_filter]
    simp [hop]
  · intro hnil hsid
    simp only [GetOperations] at hnil ⊢
    rw [hnil, List.nil_append, filter_schedulingID_eq_self ops rs.schedulingID hsid]

/-- C8 at a fresh result and three valid operations, the second of another schedulingID:
the call succeeds and the result holds the first and the third. -/
theorem C8_add_operations_witness :
    (match AddOperations (newReconciliationResult testRecon)
        [testOp "1.1" OperationStateNew 0,
         { testOp "9.9" OperationStateDone 0 with SchedulingID := "other" },
         testOp "1.2" OperationStateError 0] with
      | .ok rs' => some (GetOperations rs')
      | .error _ => none) =
      some [testOp "1.1" OperationStateNew 0, testOp "1.2" OperationStateError 0] := by
  obtain ⟨rs', h, _, hops, _⟩ := C8_add_operations (newReconciliationResult testRecon)
    [testOp "1.1" OperationStateNew 0,
     { testOp "9.9" OperationStateDone 0 with SchedulingID := "other" },
     testOp "1.2" OperationStateError 0] (by decide)
  rw [h]
  simp only [hops]
  decide

/-- C2 (counterexample): in the fourth case of `TestReconciliationResult` the operation
`1.1`, in state `failed` and three seconds old, is returned by `GetOrphans` with a threshold
of one second, as the test asserts; the rule restricted to `inprogress` fails that case. -/
theorem C2_counterexample :
    AddOperations (newReconciliationResult testRecon)
        [testOp "1.1" OperationStateFailed (-3000), testOp "1.2" OperationStateNew 0,
         testOp "1.3" OperationStateInProgress 0] =
      .ok { runtimeID := "runtimeID"
            schedulingID := "schedulingID"
            operations :=
              [testOp "1.1" OperationStateFailed (-3000), testOp "1.2" OperationStateNew 0,
               testOp "1.3" OperationStateInProgress 0]
            status := ClusterStatusReconciling } ∧
      GetOrphans { runtimeID := "runtimeID"
                   schedulingID := "schedulingID"
                   operations :=
                     [testOp "1.1" OperationStateFailed (-3000), testOp "1.2" OperationStateNew 0,
                      testOp "1.3" OperationStateInProgress 0]
                   status := ClusterStatusReconciling } 0 1000 =
        [testOp "1.1" OperationStateFailed (-3000)] ∧
      (testOp "1.1" OperationStateFailed (-3000)).State ≠ OperationStateInProgress ∧
      (testCases.map (reconcileAssertions GetOrphansSpec 0)).get? 3 = some false ∧
      (testCases.map (reconcileAssertions GetOrphans 0)).get? 3 = some true := by
  refine ⟨?_, ?_, ?_, ?_, ?_⟩ <;> decide

/-- C2 (amended): `GetOrphans` returns exactly the held operations in state `inprogress` or
`failed` whose last update is older than `now - threshold`, each as it is held and in the
held order; it is a function of the result that returns only the list, so the held
operations and the cached status are as before the call. -/
theorem C2_get_orphans (rs : ReconciliationResult) (now threshold : Int) :
    (∀ op, op ∈ GetOrphans rs now threshold ↔
      (op ∈ GetOperations rs ∧
        (op.State = OperationStateInProgress ∨ op.State = OperationStateFailed) ∧
        op.Updated < now - threshold)) ∧
    (∀ op, (op.State = OperationStateInProgress ∨ op.State = OperationStateFailed) →
      op.Updated < now - threshold →
      List.count op (GetOrphans rs now threshold) = List.count op (GetOperations rs)) ∧
    (GetOrphans rs now threshold).Sublist (GetOperations rs) := by
  have helig : ∀ op : OperationEntity, orphanEligible op.State = true ↔
      (op.State = OperationStateInProgress ∨ op.State = OperationStateFailed) := by
    intro op
    cases hs : op.State <;> simp [orphanEligible]
  refine ⟨?_, ?_, ?_⟩
  · intro op
    simp only [GetOrphans, GetOperations, List.mem_filter, Bool.and_eq_true, decide_eq_true_eq,
      helig]
    constructor
    · rintro ⟨h1, h2, h3⟩
      exact ⟨h1, h2, by omega⟩
    · rintro ⟨h1, h2, h3⟩
      exact ⟨h1, h2, by omega⟩
  · intro op hs ht
    simp only [GetOrphans, GetOperations]
    rw [List.count_filter]
    simp only [Bool.and_eq_true, decide_eq_true_eq, helig]
    exact ⟨hs, by omega⟩
  · exact List.filter_sublist _

end Reconciler
